import Mathlib

/-!
Verification development for the medical-report extraction engine
(`extractor/extractors/cbc.py`, `extractor/extractors/lft.py`,
`extractor/parsing_utils.py`, `doctr_lft_extract.py`).

The Python sources are shallowly embedded below.  Strings are Lean
`String`s; Python `str.lower`/`str.upper`/`str.isalpha`/`str.isdigit`
are modelled by their ASCII behaviour (all configuration strings in the
repository are ASCII apart from 'µ', '–' and '³', which the Python case
functions leave unchanged, as does the embedding).  Regular expressions
are embedded as executable matching functions on character lists.
RapidFuzz scores (floats in `[0,100]`) are embedded as exact rationals.
The OCR front end (word geometry, row building from bounding boxes) is
outside every claim; the pipeline is embedded from the point where a
document is an ordered list of token rows.
-/

set_option maxRecDepth 100000

namespace MedExtract

/-! ### Python string primitives (ASCII behaviour) -/

/-- `str.lower()` (ASCII). -/
def pyLower (s : String) : String := String.mk (s.data.map Char.toLower)

/-- `str.upper()` (ASCII). -/
def pyUpper (s : String) : String := String.mk (s.data.map Char.toUpper)

/-- `' '.join(l)`. -/
def joinSpace (l : List String) : String := String.intercalate " " l

/-- `''.join(l)`. -/
def joinEmpty (l : List String) : String := String.join l

/-- Substring test on character lists (Python `needle in hay`). -/
def isSubL (n : List Char) : List Char → Bool
  | [] => n.isEmpty
  | c :: t => n.isPrefixOf (c :: t) || isSubL n t

/-- Python `needle in hay` for strings (contiguous substring). -/
def pyIn (needle hay : String) : Bool := isSubL needle.data hay.data

/-- Python `str.isalpha()` (ASCII): nonempty and all letters. -/
def pyIsAlpha (s : String) : Bool := !s.data.isEmpty && s.data.all Char.isAlpha

/-- Python `str.isdigit()` (ASCII): nonempty and all decimal digits. -/
def pyIsDigit (s : String) : Bool := !s.data.isEmpty && s.data.all Char.isDigit

/-- Drop every occurrence of one character (Python `s.replace(c, '')`). -/
def dropChar (c : Char) (s : String) : String :=
  String.mk (s.data.filter (fun x => x ≠ c))

/-- Helper for `dropFirstDot`. -/
def dropFirstDotL : List Char → List Char
  | [] => []
  | '.' :: t => t
  | c :: t => c :: dropFirstDotL t

/-- Python `s.replace('.', '', 1)`: remove only the first `'.'`. -/
def dropFirstDot (s : String) : String := String.mk (dropFirstDotL s.data)

/-- Python `s.replace('fl', 'fL')` (left-to-right, non-overlapping). -/
def replFl : List Char → List Char
  | 'f' :: 'l' :: t => 'f' :: 'L' :: replFl t
  | c :: t => c :: replFl t
  | [] => []

/-- Python `s.replace('µl', 'µL')` (left-to-right, non-overlapping). -/
def replMu : List Char → List Char
  | 'µ' :: 'l' :: t => 'µ' :: 'L' :: replMu t
  | c :: t => c :: replMu t
  | [] => []

/-- `candidate.lower().replace('fl', 'fL').replace('µl', 'µL')` as used in
the unit-window searches of both extractors. -/
def unitCanon (s : String) : String :=
  String.mk (replMu (replFl (pyLower s).data))

/-! ### `NUMBER_RE` (src/extractor/parsing_utils.py line 11)

`NUMBER_RE = re.compile(r'^\d{1,3}(?:,\d{3})*(?:\.\d+)?$')`, always used
through `NUMBER_RE.match(token)`, i.e. an anchored match over the whole
token.  The leading `\d{1,3}` must consume the entire leading digit run
(a leftover digit could not start `,`, `.` or the end), the `\d{3}` of a
comma group must be followed by a non-digit, and `\.\d+$` consumes the
rest; this makes the following deterministic scanner equivalent. -/

/-- Matches `(?:,\d{3})*(?:\.\d+)?$` against the remainder of a token:
after a comma the `\d{3}` group must be three digits followed by a
non-digit (a fourth digit could neither extend the group nor start the
decimal part or the end anchor). -/
def numTail : List Char → Bool
  | [] => true
  | ',' :: rest =>
      match rest with
      | d1 :: d2 :: d3 :: rest2 =>
          d1.isDigit && d2.isDigit && d3.isDigit &&
          (match rest2 with
           | c :: _ => !c.isDigit
           | [] => true) &&
          numTail rest2
      | _ => false
  | '.' :: rest => !rest.isEmpty && rest.all Char.isDigit
  | _ => false

/-- `NUMBER_RE.match(s)` (as a full-token match). -/
def matchNumber (s : String) : Bool :=
  let cs := s.data
  let d := (cs.takeWhile Char.isDigit).length
  1 ≤ d && d ≤ 3 && numTail (cs.drop d)

/-! ### `RANGE_RE` (src/extractor/parsing_utils.py line 12)

`RANGE_RE = re.compile(r'(\d+(?:\.\d+)?)\s*(?:-|–|to)\s*(\d+(?:\.\d+)?)')`,
used through `.search(s)` (leftmost match) followed by
`f"{m.group(1)} to {m.group(2)}"`.  Greedy `\d+` runs never backtrack
here (every continuation after them starts with a non-digit), so the
only backtracking point is the optional decimal part of group 1, which
is tried with the decimal first and without it second. -/

/-- Python `\s` (ASCII whitespace). -/
def pySpace (c : Char) : Bool :=
  c == ' ' || c == '\t' || c == '\n' || c == '\r' || c == '\x0b' || c == '\x0c'

/-- `\s*(?:-|–|to)\s*`: consume separator, return the remainder. -/
def afterSep (cs : List Char) : Option (List Char) :=
  match cs.dropWhile pySpace with
  | '-' :: r => some (r.dropWhile pySpace)
  | '–' :: r => some (r.dropWhile pySpace)
  | 't' :: 'o' :: r => some (r.dropWhile pySpace)
  | _ => none

/-- Group 2, `\d+(?:\.\d+)?`, at the start of the input (pattern ends after
it, so the greedy optional decimal part is kept whenever it matches). -/
def parseNum2 (cs : List Char) : Option (List Char) :=
  let d := cs.takeWhile Char.isDigit
  let r := cs.dropWhile Char.isDigit
  if d.isEmpty then none
  else
    if r.head? = some '.' then
      let f := r.tail.takeWhile Char.isDigit
      if f.isEmpty then some d else some (d ++ '.' :: f)
    else some d

/-- Separator and group 2 after a fixed group-1 text. -/
def sepThen2 (g1 rest : List Char) : Option (List Char × List Char) :=
  (afterSep rest).bind fun r => (parseNum2 r).map fun g2 => (g1, g2)

/-- Try the whole `RANGE_RE` pattern anchored at the start of `cs`. -/
def matchRangeAt (cs : List Char) : Option (List Char × List Char) :=
  let d := cs.takeWhile Char.isDigit
  let r := cs.dropWhile Char.isDigit
  if d.isEmpty then none
  else
    if r.head? = some '.' then
      let f := r.tail.takeWhile Char.isDigit
      let r3 := r.tail.dropWhile Char.isDigit
      if f.isEmpty then sepThen2 d r
      else
        match sepThen2 (d ++ '.' :: f) r3 with
        | some res => some res
        | none => sepThen2 d r
    else sepThen2 d r

/-- `RANGE_RE.search(s)`: leftmost position where the pattern matches. -/
def searchRangeL : List Char → Option (List Char × List Char)
  | [] => none
  | c :: r =>
      match matchRangeAt (c :: r) with
      | some res => some res
      | none => searchRangeL r

/-- `RANGE_RE.search(s)` on a string, groups as strings. -/
def searchRange (s : String) : Option (String × String) :=
  (searchRangeL s.data).map fun p => (String.mk p.1, String.mk p.2)

/-- `f"{m.group(1)} to {m.group(2)}"` applied to the leftmost match, the
normalisation both extractors perform on a found range. -/
def rangeTo (s : String) : Option String :=
  (searchRange s).map fun p => p.1 ++ " to " ++ p.2

/-- `RANGE_RE.match(s)`: anchored at position 0 only (used when
`parse_row` strips leading data tokens). -/
def matchRange (s : String) : Bool := (matchRangeAt s.data).isSome

/-! ### RapidFuzz `fuzz.ratio`

`fuzz.ratio(s1, s2) = 100 * (1 - indel(s1, s2) / (|s1| + |s2|))` with
`indel(s1, s2) = |s1| + |s2| - 2 * lcs(s1, s2)`, i.e.
`200 * lcs / (|s1| + |s2|)` (and `100` for two empty strings), embedded
over exact rationals. -/

/-- One row of the longest-common-subsequence table: given the previous
row (for a shorter prefix of the first string), the remaining second
string, and the value to the left, produce the tail of the next row. -/
def lcsRowStep (x : Char) : List Char → List Nat → Nat → List Nat
  | [], _, _ => []
  | c :: bs, pdiag :: prest, left =>
      let v := if c == x then pdiag + 1 else Nat.max left (prest.headD 0)
      v :: lcsRowStep x bs prest v
  | _ :: _, [], _ => []

/-- Length of the longest common subsequence of two character lists. -/
def lcsLen (a b : List Char) : Nat :=
  (a.foldl (fun row x => 0 :: lcsRowStep x b row 0)
    (List.replicate (b.length + 1) 0)).getLastD 0

/-- `fuzz.ratio` as an exact rational in `[0, 100]` (`mkRat n d` is exact
division `n / d` for a positive denominator). -/
def fuzzScore (a b : String) : ℚ :=
  let t := a.length + b.length
  if t = 0 then 100 else mkRat (200 * lcsLen a.data b.data) t

/-- Accumulating scan for `pySplitWs`. -/
def splitWsGo : List Char → List Char → List (List Char)
  | [], acc => if acc.isEmpty then [] else [acc.reverse]
  | c :: rest, acc =>
      if pySpace c then
        if acc.isEmpty then splitWsGo rest [] else acc.reverse :: splitWsGo rest []
      else splitWsGo rest (c :: acc)

/-- Python `str.split()`: split on whitespace runs, dropping empties. -/
def pySplitWs (s : String) : List String :=
  (splitWsGo s.data []).map String.mk

/-- Lexicographic (code-point) order on strings, Python `sorted` order. -/
def strLt : List Char → List Char → Bool
  | [], [] => false
  | [], _ :: _ => true
  | _ :: _, [] => false
  | a :: as_, b :: bs_ =>
      if a < b then true else if b < a then false else strLt as_ bs_

/-- Insertion sort by `strLt` (stable; equal keys keep their order, which
matches Python's stable `sorted`). -/
def insSorted (x : String) : List String → List String
  | [] => [x]
  | y :: ys => if strLt y.data x.data then y :: insSorted x ys else x :: y :: ys

/-- Python `sorted` on a list of strings. -/
def sortStrs : List String → List String
  | [] => []
  | x :: xs => insSorted x (sortStrs xs)

/-- RapidFuzz `fuzz.token_sort_ratio`: split both sides on whitespace,
sort the tokens, re-join with single spaces, then `fuzz.ratio`. -/
def tokenSortScore (a b : String) : ℚ :=
  fuzzScore (joinSpace (sortStrs (pySplitWs a))) (joinSpace (sortStrs (pySplitWs b)))

/-! ### Data model

`ExtractedRecord` dicts and the row dicts threaded through the pipeline.
A row dict gains `'is_header'`/`'is_data'` keys in the tagging pass; a
row produced by the merge pass has neither key (reading a missing key is
a `KeyError`, modelled as `Option`), and the word-geometry fields
(`avg_x`, `avg_y`, `words`), which no claim touches, are omitted.
`sect` models the `'section'` key (`section` is reserved in Lean). -/

structure Record where
  parameter : String
  value : String
  unit : String
  range : String
deriving DecidableEq, Repr

structure Row where
  tokens : List String
  sect : String := "main"
  hdr : Option Bool := none
  dat : Option Bool := none
deriving DecidableEq, Repr

/-! ### Shared pipeline stages

These are textually identical in `extractor/extractors/cbc.py` and
`extractor/extractors/lft.py` (and in the two `doctr_*` scripts), up to
the configuration tables, so they are embedded once, parameterised by
the table. -/

/-- `any(any(kw in t.lower() for kw in HEADER_KEYWORDS) for t in row['tokens'])`. -/
def tagHeader (kws : List String) (tokens : List String) : Bool :=
  tokens.any (fun t => kws.any (fun kw => pyIn kw (pyLower t)))

/-- Pass 1 of both extractors: turn token rows into tagged rows. -/
def tagRows (kws : List String) (rowsTokens : List (List String)) : List Row :=
  rowsTokens.map fun ts =>
    let h := tagHeader kws ts
    { tokens := ts, sect := "main", hdr := some h, dat := some (!h) }

/-- Pass 2: thread `current_section` top to bottom, reassigning it to the
space-joined tokens of each header row, and stamp every row. -/
def assignSectionsGo (cur : String) : List Row → List Row
  | [] => []
  | r :: rs =>
      let cur2 := if r.hdr == some true then joinSpace r.tokens else cur
      { r with sect := cur2 } :: assignSectionsGo cur2 rs

/-- Section assignment starting from the literal `'main'`. -/
def assignSections (rows : List Row) : List Row := assignSectionsGo "main" rows

/-- `is_orphan_label(row)`: no `NUMBER_RE` token and some token whose
lowercase form is in the lowered alias set. -/
def isOrphanLabel (aliases : List String) (r : Row) : Bool :=
  r.tokens.all (fun t => !matchNumber t) &&
  r.tokens.any (fun t => aliases.any (fun a => pyLower t == pyLower a))

/-- `is_data_only(row)`: some `NUMBER_RE` token and every non-numeric
token fails `str.isalpha()`. -/
def isDataOnly (r : Row) : Bool :=
  r.tokens.any matchNumber &&
  (r.tokens.filter (fun t => !matchNumber t)).all (fun t => !pyIsAlpha t)

/-- The merged row: concatenated tokens, section inherited from the
data-only row; the merged dict carries no `'is_header'`/`'is_data'` key. -/
def mergeTwo (cur nxt : Row) : Row :=
  { tokens := cur.tokens ++ nxt.tokens, sect := cur.sect, hdr := none, dat := none }

/-- The targeted-merge `while` loop: scan with cursor `i`; when
`rows[i]` is data-only and `rows[i+1]` is an orphan label, emit the
merged row and advance by two, otherwise keep `rows[i]` and advance by
one. -/
def mergeGo (aliases : List String) (r1 : Row) : List Row → List Row
  | [] => [r1]
  | r2 :: rest =>
      if isDataOnly r1 && isOrphanLabel aliases r2 then
        mergeTwo r1 r2 ::
          (match rest with
           | [] => []
           | r3 :: rest2 => mergeGo aliases r3 rest2)
      else
        r1 :: mergeGo aliases r2 rest

/-- The merge loop over the whole row list. -/
def mergeRows (aliases : List String) : List Row → List Row
  | [] => []
  | r :: rest => mergeGo aliases r rest

/-- Index scan for `firstNumIdxBdd`, counting down the window size. -/
def firstNumIdxGo (tokens : List String) : Nat → Nat → Option Nat
  | _, 0 => none
  | lo, n + 1 =>
      if lo < tokens.length && matchNumber (tokens.getD lo "") then some lo
      else firstNumIdxGo tokens (lo + 1) n

/-- First index `j` with `lo ≤ j < hi` and `NUMBER_RE.match(tokens[j])`. -/
def firstNumIdxBdd (tokens : List String) (lo hi : Nat) : Option Nat :=
  firstNumIdxGo tokens lo (hi - lo)

/-- The `while j < len(tokens)` value scan of the CBC splitter: first
numeric index at or after `s`, or `tokens.length`. -/
def firstNumIdx (tokens : List String) (s : Nat) : Nat :=
  (firstNumIdxBdd tokens s tokens.length).getD tokens.length

/-- Index scan for `unitWindow`, counting down the window size. -/
def unitWindowGo (tokens uset : List String) : Nat → Nat → String
  | _, 0 => ""
  | k, n + 1 =>
      let two := (tokens.drop k).take 2
      if uset.contains (unitCanon (joinEmpty two)) then joinSpace two
      else if uset.contains (unitCanon (tokens.getD k "")) then tokens.getD k ""
      else unitWindowGo tokens uset (k + 1) n

/-- The unit-window scan shared by both splitters: for `k` in `[k, hi)`,
try the 2-token concatenation, then the single token, against the
lowered space-stripped valid-unit set. -/
def unitWindow (tokens uset : List String) (k hi : Nat) : String :=
  unitWindowGo tokens uset k (hi - k)

/-- `alias_tuples`: `(name, alias, alias.lower().split())` for every
alias, stably sorted by descending alias-token count (Python's stable
`sort(key=lambda x: -len(x[2]))`; every alias has fewer than 10 tokens,
so bucketed concatenation by decreasing length realises exactly that
stable sort). -/
def aliasTuplesOf (tbl : List (String × List String)) :
    List (String × String × List String) :=
  let raw := tbl.flatMap fun p => p.2.map fun a => (p.1, a, pySplitWs (pyLower a))
  (List.range 10).reverse.flatMap fun k => raw.filter fun t => t.2.2.length = k

/-- Assoc-list update with Python-dict semantics: an existing key keeps
its position and takes the new value, a new key is appended. -/
def dictInsert (k v : String) : List (String × String) → List (String × String)
  | [] => [(k, v)]
  | (k0, v0) :: rest =>
      if k0 == k then (k0, v) :: rest else (k0, v0) :: dictInsert k v rest

/-- Build a Python dict from a key/value sequence. -/
def dictBuild (items : List (String × String)) : List (String × String) :=
  items.foldl (fun d kv => dictInsert kv.1 kv.2 d) []

/-- Python dict lookup `d[k]` (as an option). -/
def dictGet (d : List (String × String)) (k : String) : Option String :=
  (d.find? fun kv => kv.1 == k).map fun kv => kv.2

/-! ### CBC configuration (`extractor/extractors/cbc.py` lines 11-68) -/

def cbcAliasTable : List (String × List String) :=
  [("Haemoglobin",           ["haemoglobin", "hemoglobin", "hb"]),
   ("Total Leucocyte Count", ["total leucocyte count", "wbc", "total w.b.c. count",
                              "leucocyte count", "tlc", "total leukocyte count",
                              "total leucocytes"]),
   ("Neutrophils",           ["neutrophils", "neutrophil", "neut"]),
   ("Lymphocytes",           ["lymphocytes", "lymphocyte", "lymph"]),
   ("Eosinophils",           ["eosinophils", "eosinophil", "eos"]),
   ("Monocytes",             ["monocytes", "monocyte", "mono"]),
   ("Basophils",             ["basophils", "basophil", "baso"]),
   ("Absolute Neutrophils",  ["absolute neutrophils", "abs neutrophils", "abs neut",
                              "absolute neut", "absolute neutrophil count",
                              "abs neutrophil count"]),
   ("Absolute Lymphocytes",  ["absolute lymphocytes", "abs lymphocytes", "abs lymph",
                              "absolute lymph", "absolute lymphocyte count",
                              "abs lymphocyte count"]),
   ("Absolute Eosinophils",  ["absolute eosinophils", "abs eosinophils", "abs eos",
                              "absolute eos", "absolute eosinophil count",
                              "abs eosinophil count"]),
   ("Absolute Monocytes",    ["absolute monocytes", "abs monocytes", "abs mono",
                              "absolute mono", "absolute monocyte count",
                              "abs monocyte count"]),
   ("RBC Count",             ["rbc count", "total r.b.c. count", "rbc", "r b c count",
                              "r b c"]),
   ("MCV",                   ["mcv", "mean corpuscular volume", "m c v"]),
   ("MCH",                   ["mch", "mean corpuscular hemoglobin", "m c h"]),
   ("MCHC",                  ["mchc", "mean corpuscular hemoglobin concentration",
                              "m c h c"]),
   ("Hct",                   ["hct", "pcv", "hematocrit", "packed cell volume"]),
   ("RDW-CV",                ["rdw-cv", "rdw cv", "rdwcv", "red cell distribution width cv"]),
   ("RDW-SD",                ["rdw-sd", "rdw sd", "rdwsd", "red cell distribution width sd"]),
   ("Platelet Count",        ["platelet count", "platelets", "plt count", "plt",
                              "platelet cnt"]),
   ("MPV",                   ["mpv", "mean platelet volume"]),
   ("PCT",                   ["pct", "plateletcrit"]),
   ("PDW",                   ["pdw", "platelet distribution width"]),
   ("Differential Leucocyte Count", ["Differential Leucocyte Count", "Differential",
                              "Differential Count"]),
   ("Absolute Leucocyte Count", ["Absolute Leucocyte Count", "Absolute", "Absolute Count"]),
   ("RBC Indices",           ["RBC Indices", "RBC Index", "Indices"]),
   ("Platelets Indices",     ["Platelets Indices", "Platelet Indices", "Platelets Index"])]

def cbcMeta : List (String × String × String) :=
  [("Haemoglobin", "g/dL", "13 - 17"),
   ("Total Leucocyte Count", "/cumm", "4000 - 10000"),
   ("Neutrophils", "%", "40 - 80"),
   ("Lymphocytes", "%", "20 - 40"),
   ("Eosinophils", "%", "1 - 6"),
   ("Monocytes", "%", "2 - 10"),
   ("Basophils", "%", "0 - 1"),
   ("Absolute Neutrophils", "/cumm", "2000 - 7000"),
   ("Absolute Lymphocytes", "/cumm", "1000 - 3000"),
   ("Absolute Eosinophils", "/cumm", "20 - 500"),
   ("Absolute Monocytes", "/cumm", "200 - 1000"),
   ("RBC Count", "Million/cumm", "4.5 - 5.5"),
   ("MCV", "fL", "81 - 101"),
   ("MCH", "pg", "27 - 32"),
   ("MCHC", "g/dL", "31.5 - 34.5"),
   ("Hct", "%", "40 - 50"),
   ("RDW-CV", "%", "11.6 - 14.0"),
   ("RDW-SD", "fL", "39 - 46"),
   ("Platelet Count", "/cumm", "150000 - 410000"),
   ("PCT", "", ""),
   ("MPV", "fL", "7.5 - 11.5"),
   ("PDW", "", ""),
   ("Platelets on Smear", "", "")]

/-- `PARAMETER_META.get(name, {}).get('unit', '')` for the CBC table. -/
def cbcMetaUnit (n : String) : String :=
  ((cbcMeta.find? fun p => p.1 == n).map fun p => p.2.1).getD ""

/-- `PARAMETER_META.get(name, {}).get('range', '')` for the CBC table. -/
def cbcMetaRange (n : String) : String :=
  ((cbcMeta.find? fun p => p.1 == n).map fun p => p.2.2).getD ""

def cbcHeaderKeywords : List String :=
  ["complete", "test", "description", "ref.", "range", "differential", "absolute",
   "indices", "interpretation"]

def cbcValidUnits : List String :=
  ["%", "g/dL", "pg", "fL", "/cumm", "million/cumm", "x10³/µL"]

/-- `{u.lower().replace(' ', '') for u in VALID_UNITS}`. -/
def cbcUnitSetL : List String :=
  cbcValidUnits.map fun u => dropChar ' ' (pyLower u)

/-- `all_aliases()`. -/
def cbcAllAliases : List String := (cbcAliasTable.map Prod.snd).flatten

def cbcAliasTuples : List (String × String × List String) :=
  aliasTuplesOf cbcAliasTable

/-! ### CBC row splitter (`extractor/extractors/cbc.py` lines 146-222) -/

/-- The exact-match scan of the CBC splitter: the first alias tuple (in
sorted order) whose lowered token span at the cursor equals the alias
token list. -/
def cbcFindMatch (tokens : List String) (i : Nat) : Option (String × Nat × Nat) :=
  (cbcAliasTuples.find? fun t =>
      let n := t.2.2.length
      decide (i + n ≤ tokens.length) &&
      ((tokens.drop i).take n).map pyLower == t.2.2).map
    fun t => (t.1, i, i + t.2.2.length)

/-- The range search of the CBC splitter body:
`RANGE_RE.search(' '.join(tokens[end:j+3]))` with `j` the value index. -/
def cbcWindowRange (tokens : List String) (e : Nat) : String :=
  (rangeTo (joinSpace ((tokens.drop e).take (firstNumIdx tokens e + 3 - e)))).getD ""

/-- The unit search of the CBC splitter body: window `[j+1, min(j+4, len))`
with `j` the value index. -/
def cbcWindowUnit (tokens : List String) (e : Nat) : String :=
  let j := firstNumIdx tokens e
  unitWindow tokens cbcUnitSetL (j + 1) (Nat.min (j + 4) tokens.length)

/-- One accepted-match body of the CBC splitter: value scan to the end
of the row, range search on `tokens[end:j+3]`, unit window
`[j+1, min(j+4, len))`, metadata backfill, record guarded by
`if name and value`, cursor moved to `j+1`. -/
def cbcMatchBody (tokens : List String) (name : String) (e : Nat) :
    Option Record × Nat :=
  let j := firstNumIdx tokens e
  let value? := if j < tokens.length then some (tokens.getD j "") else none
  let rng0 := cbcWindowRange tokens e
  let unit0 := cbcWindowUnit tokens e
  let unit := if unit0 = "" then cbcMetaUnit name else unit0
  let rng := if rng0 = "" then cbcMetaRange name else rng0
  match value? with
  | some v =>
      (if name ≠ "" then
        some { parameter := name, value := v, unit := unit, range := rng }
       else none, j + 1)
  | none => (none, j + 1)

/-- The `while i < len(tokens)` loop of the CBC splitter (fuel-indexed;
the cursor strictly increases, so `tokens.length + 1` fuel is enough). -/
def cbcLoop (tokens : List String) : Nat → Nat → List Record
  | 0, _ => []
  | fuel + 1, i =>
      if i < tokens.length then
        match cbcFindMatch tokens i with
        | some (name, _s, e) =>
            match cbcMatchBody tokens name e with
            | (some r, i2) => r :: cbcLoop tokens fuel i2
            | (none, i2) => cbcLoop tokens fuel i2
        | none => cbcLoop tokens fuel (i + 1)
      else []

def cbcTlcAliases : List String :=
  ["total leucocyte count", "wbc", "total w.b.c. count", "leucocyte count", "tlc",
   "total leukocyte count", "total leucocytes"]

/-- The trailing Total-Leucocyte-Count pass of the CBC splitter (cbc.py
lines 196-221): for every token whose lowercase form is a TLC alias,
take the first numeric token after it and emit a TLC record. -/
def cbcTlcGo (tokens : List String) : List String → Nat → List Record
  | [], _ => []
  | t :: ts, idx =>
      let here :=
        if cbcTlcAliases.any (fun a => pyLower t == pyLower a) then
          match firstNumIdxBdd tokens (idx + 1) tokens.length with
          | some j =>
              let v := tokens.getD j ""
              let rng0 := (rangeTo (joinSpace ((tokens.drop (j + 1)).take 3))).getD ""
              let unit0 :=
                unitWindow tokens cbcUnitSetL (j + 1) (Nat.min (j + 4) tokens.length)
              let unit := if unit0 = "" then cbcMetaUnit "Total Leucocyte Count" else unit0
              let rng := if rng0 = "" then cbcMetaRange "Total Leucocyte Count" else rng0
              [{ parameter := "Total Leucocyte Count", value := v, unit := unit,
                 range := rng }]
          | none => []
        else []
      here ++ cbcTlcGo tokens ts (idx + 1)

/-- `split_multi_param_row` of the CBC extractor. -/
def cbcSplitRow (tokens : List String) : List Record :=
  cbcLoop tokens (tokens.length + 1) 0 ++ cbcTlcGo tokens tokens 0

/-! ### CBC `parse_row` (`extractor/extractors/cbc.py` lines 223-287) -/

/-- `while tokens and (NUMBER_RE.match(tokens[0]) or RANGE_RE.match(tokens[0])): tokens.pop(0)`. -/
def stripLeadingData : List String → List String
  | [] => []
  | t :: ts => if matchNumber t || matchRange t then stripLeadingData ts else t :: ts

/-- `alias_lookup = {alias.lower(): name for name, aliases in PARAM_ALIASES.items() for alias in aliases}`. -/
def cbcAliasLookup : List (String × String) :=
  dictBuild (cbcAliasTable.flatMap fun p => p.2.map fun a => (pyLower a, p.1))

/-- The section-scoped lookup: the first parameter whose lowered name is
a substring of the (lowered) section, or one of whose aliases (verbatim)
is a substring, restricts the lookup to its own aliases. -/
def cbcSectionAliases (sectLower : String) : List (String × String) :=
  match cbcAliasTable.find?
      (fun p => pyIn (pyLower p.1) sectLower || p.2.any fun a => pyIn a sectLower) with
  | some p => dictBuild (p.2.map fun a => (pyLower a, p.1))
  | none => cbcAliasLookup

/-- The three-tier alias resolution of `parse_row`: exact section-scoped
lookup, then stripped-substring scan over the full table, then
`token_sort_ratio` with the length-dependent threshold. -/
def cbcResolveName (label joinedLabel sectLower : String) : Option String :=
  let sa := cbcSectionAliases sectLower
  match dictGet sa (pyLower label) with
  | some n => some n
  | none =>
      match cbcAliasTable.find? (fun p => p.2.any fun a =>
          pyIn (pyLower (dropChar '-' (dropChar ' ' a))) (dropChar '-' joinedLabel)) with
      | some p => some p.1
      | none =>
          let minScore : ℚ := if label.length ≤ 3 then 90 else 50
          let best := sa.foldl
            (fun b kv =>
              let sc : ℚ :=
                if 0 < label.length then tokenSortScore (pyLower label) kv.1 else 0
              match b with
              | none => some (kv.1, sc)
              | some p => if p.2 < sc then some (kv.1, sc) else b)
            none
          match best with
          | some p => if minScore ≤ p.2 then dictGet sa (pyLower p.1) else none
          | none => none

/-- The inner unit scan of `parse_row` (single token first, then the
2-token concatenation, advancing through the data tokens). -/
def parseRowUnitGo (dts uset : List String) : List String → Nat → String
  | [], _ => ""
  | _ :: rest, idx =>
      let s1 := (dts.drop idx).take 1
      if uset.contains (unitCanon (joinEmpty s1)) then joinSpace s1
      else
        let s2 := (dts.drop idx).take 2
        if uset.contains (unitCanon (joinEmpty s2)) then joinSpace s2
        else parseRowUnitGo dts uset rest (idx + 1)

/-- `parse_row` of the CBC extractor. -/
def cbcParseRow (r : Row) : Option Record :=
  let tokens := stripLeadingData r.tokens
  match tokens.findIdx? matchNumber with
  | none => none
  | some i =>
      let labelTokens := tokens.take i
      let dataTokens := tokens.drop i
      let label := joinSpace labelTokens
      let joinedLabel := pyLower (dropChar ' ' (joinEmpty labelTokens))
      let name? := cbcResolveName label joinedLabel (pyLower r.sect)
      let value? := dataTokens.find? matchNumber
      let rng0 := (rangeTo (joinSpace dataTokens)).getD ""
      let unit0 := parseRowUnitGo dataTokens cbcUnitSetL dataTokens 0
      let ur :=
        match name? with
        | some n =>
            if n ≠ "" && (unit0 = "" || rng0 = "") then
              (if unit0 = "" then cbcMetaUnit n else unit0,
               if rng0 = "" then cbcMetaRange n else rng0)
            else (unit0, rng0)
        | none => (unit0, rng0)
      match name?, value? with
      | some n, some v =>
          if n ≠ "" then
            some { parameter := n, value := v, unit := ur.1, range := ur.2 }
          else none
      | _, _ => none

/-- `extract_cbc_from_image` from the point where the document is a list
of token rows (the word-geometry row builder is the OCR boundary):
tagging, section threading, targeted merge, then per row the splitter
with `parse_row` fallback; the collected list is returned as-is. -/
def extractCbcRows (rowsTokens : List (List String)) : List Record :=
  let rows := mergeRows cbcAllAliases (assignSections (tagRows cbcHeaderKeywords rowsTokens))
  rows.flatMap fun r =>
    let multi := cbcSplitRow r.tokens
    if multi.isEmpty then
      match cbcParseRow r with
      | some rec => [rec]
      | none => []
    else multi

/-! ### LFT configuration (`extractor/extractors/lft.py` lines 11-81) -/

def lftAliasTable : List (String × List String) :=
  [("SGOT (AST)", ["sgot", "ast", "sgot (ast)", "serum glutamate oxaloacetate transaminase",
                   "aspartate transaminase"]),
   ("SGPT (ALT)", ["sgpt", "alt", "sgpt (alt)", "serum glutamate pyruvate transaminase",
                   "alanine transaminase"]),
   ("ALP", ["alp", "alkaline phosphatase", "alk phosphatase", "alkaline", "phosphatase"]),
   ("Total Bilirubin", ["total bilirubin", "bilirubin total", "bilirubin t", "t bilirubin",
                        "bilirubin", "total", "bilirubin total", "total bilirubin"]),
   ("Direct Bilirubin", ["direct bilirubin", "bilirubin direct", "d bilirubin", "bilirubin",
                         "direct", "direct bilirubin", "bilirubin direct", "serumi bilirubin",
                         "serum direct bilirubin", "serum bilirubin (direct)",
                         "bilirubin (direct)", "(direct)", "serum bilirubin direct"]),
   ("Indirect Bilirubin", ["indirect bilirubin", "bilirubin indirect", "i bilirubin",
                           "bilirubin", "indirect", "indirect bilirubin", "bilirubin indirect",
                           "serum bilirubin (indirect)", "bilirubin (indirect)", "(indirect)",
                           "serum bilirubin indirect"]),
   ("Albumin", ["albumin", "serum albumin"]),
   ("Globulin", ["globulin", "serum globulin"]),
   ("A/G Ratio", ["a/g ratio", "ag ratio", "albumin globulin ratio", "a:g ratio", "a:g"]),
   ("Total Protein", ["total protein", "protein total", "serum protein", "total proteins",
                      "proteins", "total", "protein", "serum total protein", "serum proteins",
                      "serum total proteins"]),
   ("GGT", ["ggt", "gamma glutamyl transferase", "gamma gt", "gamma glutamyl",
            "gamma-glutamyl transferase", "gamma-glutamyl", "gamma glutamyl (ggt)", "(ggt)",
            "ggt (gamma glutamyl)", "gamma glutamyltransferase"]),
   ("SGOT/SGPT Ratio", ["sgot/sgpt ratio", "sgot/sgpt", "sgot sgot/sgpt ratio", "sgot/sgpt",
                        "ratio"])]

def lftMeta : List (String × String × String) :=
  [("SGOT (AST)", "U/L", "5 - 40"),
   ("SGPT (ALT)", "U/L", "7 - 56"),
   ("ALP", "U/L", "44 - 147"),
   ("Total Bilirubin", "mg/dL", "0.1 - 1.2"),
   ("Direct Bilirubin", "mg/dL", "<0.3"),
   ("Indirect Bilirubin", "mg/dL", "<1.0"),
   ("Albumin", "g/dL", "3.5 - 5.0"),
   ("Globulin", "g/dL", "2.0 - 3.5"),
   ("A/G Ratio", "-", "1.0 - 2.2"),
   ("Total Protein", "g/dL", "6.0 - 8.3"),
   ("GGT", "U/L", "9 - 48"),
   ("SGOT/SGPT Ratio", "RATIO", "0 - 46")]

/-- `PARAMETER_META.get(name, {}).get('unit', '')` for the LFT table. -/
def lftMetaUnit (n : String) : String :=
  ((lftMeta.find? fun p => p.1 == n).map fun p => p.2.1).getD ""

/-- `PARAMETER_META.get(name, {}).get('range', '')` for the LFT table. -/
def lftMetaRange (n : String) : String :=
  ((lftMeta.find? fun p => p.1 == n).map fun p => p.2.2).getD ""

def lftHeaderKeywords : List String :=
  ["liver", "function", "test", "description", "reference", "range", "unit", "result",
   "protein", "enzyme", "remarks", "interpretation", "parameters"]

def lftValidUnits : List String :=
  ["u/l", "mg/dl", "g/dl", "g/l", "%", "", "-", "gm/dl", "iu/l", "ratio"]

/-- `{u.lower().replace(' ', '') for u in VALID_UNITS}` for the LFT set. -/
def lftUnitSetL : List String :=
  lftValidUnits.map fun u => dropChar ' ' (pyLower u)

/-- `UNIT_NORMALIZATION` in source order (a duplicated `'mgidl'` literal
key collapses to one dict entry). -/
def unitNormAssoc : List (String × String) :=
  [("mgidl", "mg/dL"), ("mg/di", "mg/dL"), ("mgldi", "mg/dL"), ("mg/dl", "mg/dL"),
   ("gidi", "g/dL"), ("gidl", "g/dL"), ("g/di", "g/dL"), ("gldi", "g/dL"), ("g/dl", "g/dL"),
   ("uai", "U/L"), ("u/i", "U/L"), ("u/l", "U/L"), ("iu/l", "U/L")]

/-- `normalize_unit` of the LFT extractor. -/
def normalizeUnit (unit : String) : String :=
  let u := dropChar '.' (dropChar ' ' (pyLower unit))
  match unitNormAssoc.find? fun kv => pyIn kv.1 u with
  | some kv => kv.2
  | none => if pyIn "mgid" u then "mg/dL" else if pyIn "gid" u then "g/dL" else unit

/-- `all_aliases()` for the LFT table. -/
def lftAllAliases : List String := (lftAliasTable.map Prod.snd).flatten

def lftAliasTuples : List (String × String × List String) :=
  aliasTuplesOf lftAliasTable

/-! ### LFT row splitter (`extractor/extractors/lft.py` lines 150-305) -/

/-- The max-of-three comparison for one candidate alias at the cursor:
direct token-for-token score, joined (lowered, colons stripped) score,
reversed-token-order score, combined by the two `if ... > score`
updates. -/
def scoreAt (aliasToks tokens : List String) (i : Nat) : ℚ :=
  let n := aliasToks.length
  let slice := (tokens.drop i).take n
  let sliceLower := slice.map pyLower
  let aliasStr := joinSpace aliasToks
  let score := fuzzScore (joinSpace sliceLower) aliasStr
  let joined := fuzzScore (dropChar ':' (pyLower (joinSpace slice))) aliasStr
  let revScore := fuzzScore (joinSpace sliceLower.reverse) aliasStr
  let s1 := if score < joined then joined else score
  if s1 < revScore then revScore else s1

/-- One step of the best-candidate fold: a candidate whose span fits at
the cursor updates the best exactly when `score > best_score`. -/
def lftBestStep (tokens : List String) (i : Nat)
    (acc : ℚ × Option (String × Nat × Nat)) (t : String × String × List String) :
    ℚ × Option (String × Nat × Nat) :=
  let n := t.2.2.length
  if i + n ≤ tokens.length then
    let sc := scoreAt t.2.2 tokens i
    if acc.1 < sc then (sc, some (t.1, i, i + n)) else acc
  else acc

/-- The best-candidate fold at one cursor position (`score > best_score`
updates, initial best score 0 and no best name). -/
def lftBestAt (tokens : List String) (i : Nat) : ℚ × Option (String × Nat × Nat) :=
  lftAliasTuples.foldl (lftBestStep tokens i) (0, none)

/-- The bounded value scan of the LFT splitter: window `[e, e+4)` first,
then `[e+4, len)` (together: the first numeric index at or after `e`). -/
def lftFindValue (tokens : List String) (e : Nat) : Option Nat :=
  match firstNumIdxBdd tokens e (Nat.min (e + 4) tokens.length) with
  | some j => some j
  | none => firstNumIdxBdd tokens (e + 4) tokens.length

/-- The range search of the LFT splitter body:
`RANGE_RE.search(' '.join(tokens[end:end+4]))`. -/
def lftWindowRange (tokens : List String) (e : Nat) : String :=
  (rangeTo (joinSpace ((tokens.drop e).take 4))).getD ""

/-- The unit search of the LFT splitter body: window after the value, or
after the alias span when no value was found. -/
def lftWindowUnit (tokens : List String) (e : Nat) : String :=
  match lftFindValue tokens e with
  | some j => unitWindow tokens lftUnitSetL (j + 1) (Nat.min (j + 4) tokens.length)
  | none => unitWindow tokens lftUnitSetL e (Nat.min (e + 4) tokens.length)

/-- One accepted-match body of the LFT fuzzy loop: bounded value scan,
range search on `tokens[end:end+4]`, unit window after the value (or
after the alias span if no value), metadata backfill, unit
normalisation, record guarded by `if name and value`, cursor moved to
`value_idx+1` (or `end+1` when no value was found). -/
def lftMatchBody (tokens : List String) (name : String) (e : Nat) :
    Option Record × Nat :=
  let vj := lftFindValue tokens e
  let rng0 := lftWindowRange tokens e
  let unit0 := lftWindowUnit tokens e
  let unit1 := if unit0 = "" then lftMetaUnit name else unit0
  let rng := if rng0 = "" then lftMetaRange name else rng0
  let unit := normalizeUnit unit1
  match vj with
  | some j =>
      (if name ≠ "" then
        some { parameter := name, value := tokens.getD j "", unit := unit, range := rng }
       else none, j + 1)
  | none => (none, e + 1)

/-- The `while i < len(tokens)` fuzzy loop of the LFT splitter
(fuel-indexed; the cursor strictly increases, so `tokens.length + 1`
fuel is enough). -/
def lftLoop (tokens : List String) : Nat → Nat → List Record
  | 0, _ => []
  | fuel + 1, i =>
      if i < tokens.length then
        let best := lftBestAt tokens i
        match best.2 with
        | some (name, _s, e) =>
            if 80 ≤ best.1 then
              match lftMatchBody tokens name e with
              | (some r, i2) => r :: lftLoop tokens fuel i2
              | (none, i2) => lftLoop tokens fuel i2
            else lftLoop tokens fuel (i + 1)
        | none => lftLoop tokens fuel (i + 1)
      else []

/-- Units recognised by substring in the bilirubin / protein branches. -/
def lftSubUnits : List String := ["mg", "g", "iu", "u/", "g/"]

/-- The parenthetical-priority chain of the bilirubin branch (lft.py
lines 176-184): `(total)`, then `(direct)`/`serumi`/next-row-first-token,
then `(indirect)`, else no parameter. -/
def lftBiliParam (tokens : List String) (nextRow : Option (List String)) :
    Option String :=
  let label := pyLower (joinSpace tokens)
  let nextFirst :=
    match nextRow with
    | some nt => pyIn "(direct)" (pyLower (nt.headD ""))
    | none => false
  if pyIn "(total)" label then some "Total Bilirubin"
  else if pyIn "(direct)" label || pyIn "serumi bilirubin" label || nextFirst then
    some "Direct Bilirubin"
  else if pyIn "(indirect)" label then some "Indirect Bilirubin"
  else none

/-- The unit scan of the bilirubin and protein branches: the first token
containing one of the unit substrings. -/
def lftSubUnitScan (tokens : List String) : String :=
  (tokens.find? fun t => lftSubUnits.any fun u => pyIn u (pyLower t)).getD ""

/-- The bilirubin parenthetical-priority branch (lft.py lines 156-193);
`none` means control falls through to the next branch. -/
def lftBiliBranch (tokens : List String) (nextRow : Option (List String)) :
    Option Record :=
  if tokens.any (fun t => pyIn "bilirubin" (pyLower t)) then
    let rng0 := (rangeTo (joinSpace tokens)).getD ""
    let unit0 := lftSubUnitScan tokens
    match lftBiliParam tokens nextRow, tokens.find? matchNumber with
    | some p, some v =>
        if p ≠ "" then
          let unit1 := if unit0 = "" then lftMetaUnit p else unit0
          let rng := if rng0 = "" then lftMetaRange p else rng0
          some { parameter := p, value := v, unit := normalizeUnit unit1, range := rng }
        else none
    | _, _ => none
  else none

/-- The value extraction of the protein branch (lft.py lines 199-207):
first numeric token of this row, else of the next row. -/
def lftProteinValue (tokens : List String) (nextRow : Option (List String)) :
    Option String :=
  match tokens.find? matchNumber with
  | some v => some v
  | none =>
      match nextRow with
      | some nt => nt.find? matchNumber
      | none => none

/-- The Total-Protein special case (lft.py lines 195-226); `none` means
control falls through to the fuzzy loop. -/
def lftProteinBranch (tokens : List String) (nextRow : Option (List String)) :
    Option Record :=
  if tokens.any (fun t => pyIn "protein" (pyLower t)) then
    let label := pyLower (joinSpace tokens)
    if pyIn "serum protein" label || pyIn "total protein" label then
      let unit0 := lftSubUnitScan tokens
      let rng0 := (rangeTo (joinSpace tokens)).getD ""
      let unit1 := if unit0 = "" then lftMetaUnit "Total Protein" else unit0
      let rng := if rng0 = "" then lftMetaRange "Total Protein" else rng0
      match lftProteinValue tokens nextRow with
      | some v =>
          some { parameter := "Total Protein", value := v, unit := normalizeUnit unit1,
                 range := rng }
      | none => none
    else none
  else none

/-- `split_multi_param_row` of the LFT extractor: bilirubin branch, then
the protein branch, then the fuzzy alias loop. -/
def lftSplitRow (tokens : List String) (nextRow : Option (List String)) : List Record :=
  match lftBiliBranch tokens nextRow with
  | some r => [r]
  | none =>
      match lftProteinBranch tokens nextRow with
      | some r => [r]
      | none => lftLoop tokens (tokens.length + 1) 0

/-! ### LFT pipeline (`extractor/extractors/lft.py` lines 83-326) -/

/-- The extraction loop over rows: `if row['is_data'] or is_protein_row`
(reading the `'is_data'` key of a merged row is a `KeyError`, hence
`none`), with `next_row = rows[idx+1]`. -/
def lftCollect : List Row → Option (List Record)
  | [] => some []
  | r :: rest =>
      match r.dat with
      | none => none
      | some d =>
          let isProt := r.tokens.any fun t => pyIn "protein" (pyLower t)
          let nextTok := rest.head?.map Row.tokens
          let here := if d || isProt then lftSplitRow r.tokens nextTok else []
          (lftCollect rest).map fun tail => here ++ tail

/-- The post-loop metadata backfill over the extracted list. -/
def lftBackfillPass (recs : List Record) : List Record :=
  recs.map fun r =>
    { r with
      unit := if r.unit = "" then lftMetaUnit r.parameter else r.unit,
      range := if r.range = "" then lftMetaRange r.parameter else r.range }

/-- Deduplication by lowercased parameter name with a `seen` set,
keeping first occurrences. -/
def dedupGo (seen : List String) : List Record → List Record
  | [] => []
  | r :: rs =>
      let k := pyLower r.parameter
      if seen.contains k then dedupGo seen rs
      else r :: dedupGo (k :: seen) rs

/-- `seen = set(); deduped = []; ...` (lft.py lines 318-325). -/
def dedupRecords (l : List Record) : List Record := dedupGo [] l

/-- The LFT record list before deduplication. -/
def lftPreDedup (rowsTokens : List (List String)) : Option (List Record) :=
  let rows := mergeRows lftAllAliases (assignSections (tagRows lftHeaderKeywords rowsTokens))
  (lftCollect rows).map lftBackfillPass

/-- `extract_lft_from_image` from the token-row boundary: tagging,
section threading, targeted merge, splitting, metadata backfill, and
deduplication; `none` models the `KeyError` raised when the extraction
loop reads `'is_data'` on a merged row. -/
def extractLftRows (rowsTokens : List (List String)) : Option (List Record) :=
  (lftPreDedup rowsTokens).map dedupRecords

/-! ### Total-Proteins lookahead (`doctr_lft_extract.py` lines 363-377)

The standalone script's heuristic pass runs after its dedup loop, over
the merged rows (only their `'tokens'` key is read), threading the same
`seen` set; `PARAMETER_META` of that script (lines 41-54) is textually
identical to `lftMeta`, so the record's unit/range lookups reuse it. -/

/-- `next_tokens and next_tokens[0].replace('.', '', 1).isdigit()`. -/
def tpNumericish (t : String) : Bool := pyIsDigit (dropFirstDot t)

/-- The guard of one iteration: both `"TOTAL"` and `"PROTEINS"` are
among the uppercased tokens, a next row exists, and its first token is
digit-like. -/
def tpFireCond (tokens : List String) (nextTokens : Option (List String)) : Bool :=
  ((tokens.map pyUpper).contains "TOTAL" && (tokens.map pyUpper).contains "PROTEINS") &&
  match nextTokens with
  | some nt => !nt.isEmpty && tpNumericish (nt.headD "")
  | none => false

/-- The record the heuristic appends for value `v`. -/
def tpRecordOf (v : String) : Record :=
  { parameter := "Total Proteins", value := v, unit := lftMetaUnit "Total Protein",
    range := lftMetaRange "Total Protein" }

/-- The lookahead loop: for each row (with its successor), if the guard
holds and `'total proteins'` is not in `seen`, append the record and add
the key; the scan advances one row at a time. -/
def tpLookahead (rows : List (List String)) (acc : List Record) (seen : List String) :
    List Record × List String :=
  match rows with
  | [] => (acc, seen)
  | tokens :: rest =>
      if tpFireCond tokens rest.head? && !seen.contains "total proteins" then
        tpLookahead rest (acc ++ [tpRecordOf ((rest.headD []).headD "")])
          ("total proteins" :: seen)
      else tpLookahead rest acc seen

/-- The range-bound grammar of `RANGE_RE`, `\d+(?:\.\d+)?` (digits with
an optional single decimal part, no comma grouping), written from the
spec's description of the amended range-normalisation property. -/
def simpleNum (s : String) : Bool :=
  let d := s.data.takeWhile Char.isDigit
  let r := s.data.dropWhile Char.isDigit
  !d.isEmpty &&
    (r.isEmpty ||
      (decide (r.head? = some '.') && !r.tail.isEmpty && r.tail.all Char.isDigit))

/-!
## Theorems

Helper lemmas first, then one theorem per claim (with witnesses and
counterexamples where the claim's status calls for them).
-/

theorem all_takeWhile (p : Char → Bool) (l : List Char) :
    (l.takeWhile p).all p = true := by
  induction l with
  | nil => rfl
  | cons c t ih =>
      cases h : p c with
      | true => simp [List.takeWhile_cons, h, ih]
      | false => simp [List.takeWhile_cons, h]

theorem takeWhile_all_append {p : Char → Bool} {xs : List Char} (ys : List Char)
    (h : xs.all p = true) (h2 : ∀ c, ys.head? = some c → p c = false) :
    (xs ++ ys).takeWhile p = xs ∧ (xs ++ ys).dropWhile p = ys := by
  induction xs with
  | nil =>
      simp only [List.nil_append]
      cases ys with
      | nil => simp
      | cons c t =>
          have hc := h2 c rfl
          simp [List.takeWhile_cons, List.dropWhile_cons, hc]
  | cons x xt ih =>
      simp only [List.all_cons, Bool.and_eq_true] at h
      obtain ⟨hx, hxs⟩ := h
      have ihh := ih hxs
      constructor
      · simp [List.cons_append, List.takeWhile_cons, hx, ihh.1]
      · simp [List.cons_append, List.dropWhile_cons, hx, ihh.2]

theorem digit_not_space {a : Char} (h : a.isDigit = true) : pySpace a = false := by
  cases hs : pySpace a with
  | false => rfl
  | true =>
      exfalso
      simp only [pySpace, Bool.or_eq_true, beq_iff_eq] at hs
      rcases hs with ((((h1 | h1) | h1) | h1) | h1) | h1 <;> subst h1 <;>
        exact absurd h (by decide)

/-- The shape hypothesis for one `RANGE_RE` bound: digits then an
optional decimal part. -/
def numShapeL (d f : List Char) : Prop :=
  d ≠ [] ∧ d.all Char.isDigit = true ∧
    (f = [] ∨ ∃ g, f = '.' :: g ∧ g ≠ [] ∧ g.all Char.isDigit = true)

theorem parseNum2_shape {d f : List Char} (h : numShapeL d f) :
    parseNum2 (d ++ f) = some (d ++ f) := by
  obtain ⟨hne, hall, hf⟩ := h
  cases hf with
  | inl hnil =>
      subst hnil
      have tw := takeWhile_all_append (p := Char.isDigit) [] hall
        (by intro c hc; simp at hc)
      simp only [List.append_nil] at tw ⊢
      unfold parseNum2
      rw [tw.1, tw.2]
      cases d with
      | nil => exact absurd rfl hne
      | cons a t => simp
  | inr hg =>
      obtain ⟨g, hfg, hgne, hgall⟩ := hg
      subst hfg
      have tw := takeWhile_all_append (p := Char.isDigit) ('.' :: g) hall
        (by intro c hc; simp at hc; subst hc; rfl)
      unfold parseNum2
      rw [tw.1, tw.2]
      have tw2 := takeWhile_all_append (p := Char.isDigit) [] hgall
        (by intro c hc; simp at hc)
      simp only [List.append_nil] at tw2
      cases d with
      | nil => exact absurd rfl hne
      | cons a t =>
          simp only [List.isEmpty_cons, Bool.false_eq_true, if_false, List.head?_cons,
            List.tail_cons]
          rw [if_pos trivial, tw2.1]
          cases g with
          | nil => exact absurd rfl hgne
          | cons b u => simp

/-- The three separator forms of `RANGE_RE`. -/
def sepForm (sep : List Char) : Prop :=
  sep = ['-'] ∨ sep = ['–'] ∨ sep = [' ', 't', 'o', ' ']

theorem afterSep_sep {d2 f2 : List Char} (h2 : numShapeL d2 f2) {sep : List Char}
    (hs : sepForm sep) : afterSep (sep ++ (d2 ++ f2)) = some (d2 ++ f2) := by
  obtain ⟨hne, hall, -⟩ := h2
  have hdrop : (d2 ++ f2).dropWhile pySpace = d2 ++ f2 := by
    cases d2 with
    | nil => exact absurd rfl hne
    | cons a t =>
        have ha : Char.isDigit a = true := by
          simp only [List.all_cons, Bool.and_eq_true] at hall
          exact hall.1
        simp [List.cons_append, List.dropWhile_cons, digit_not_space ha]
  have hDash : ∀ xs : List Char, afterSep ('-' :: xs) = some (xs.dropWhile pySpace) :=
    fun _ => rfl
  have hNdash : ∀ xs : List Char, afterSep ('–' :: xs) = some (xs.dropWhile pySpace) :=
    fun _ => rfl
  have hTo : ∀ xs : List Char,
      afterSep (' ' :: 't' :: 'o' :: ' ' :: xs) = some (xs.dropWhile pySpace) :=
    fun _ => rfl
  rcases hs with h | h | h <;> subst h
  · rw [List.singleton_append, hDash, hdrop]
  · rw [List.singleton_append, hNdash, hdrop]
  · rw [List.cons_append, List.cons_append, List.cons_append, List.cons_append,
      List.nil_append, hTo, hdrop]

theorem sepThen2_concat {d1 d2 f2 sep : List Char} (h2 : numShapeL d2 f2)
    (hs : sepForm sep) : sepThen2 d1 (sep ++ (d2 ++ f2)) = some (d1, d2 ++ f2) := by
  unfold sepThen2
  rw [afterSep_sep h2 hs]
  show (parseNum2 (d2 ++ f2)).map _ = _
  rw [parseNum2_shape h2]
  rfl

theorem matchRangeAt_concat {d1 f1 d2 f2 sep : List Char}
    (h1 : numShapeL d1 f1) (h2 : numShapeL d2 f2) (hs : sepForm sep) :
    matchRangeAt (d1 ++ (f1 ++ (sep ++ (d2 ++ f2)))) = some (d1 ++ f1, d2 ++ f2) := by
  obtain ⟨hne1, hall1, hf1⟩ := h1
  have hhead : ∀ c, (f1 ++ (sep ++ (d2 ++ f2))).head? = some c → Char.isDigit c = false := by
    intro c hc
    rcases hf1 with hnil | ⟨g, hfg, hgne, hgall⟩
    · subst hnil
      simp only [List.nil_append] at hc
      rcases hs with h | h | h <;> subst h <;> simp at hc <;> subst hc <;> rfl
    · subst hfg
      simp at hc
      subst hc
      rfl
  have tw := takeWhile_all_append (p := Char.isDigit) (f1 ++ (sep ++ (d2 ++ f2))) hall1 hhead
  unfold matchRangeAt
  rw [tw.1, tw.2]
  dsimp only
  have hde : d1.isEmpty = false := by
    cases d1 with
    | nil => exact absurd rfl hne1
    | cons a t => rfl
  rw [hde]
  simp only [Bool.false_eq_true, if_false]
  rcases hf1 with hnil | ⟨g, hfg, hgne, hgall⟩
  · subst hnil
    have hnd : (([] : List Char) ++ (sep ++ (d2 ++ f2))).head? ≠ some '.' := by
      rcases hs with h | h | h <;> subst h <;> simp
    rw [if_neg hnd, List.nil_append, sepThen2_concat h2 hs]
    simp
  · subst hfg
    have hgh : ∀ c, (sep ++ (d2 ++ f2)).head? = some c → Char.isDigit c = false := by
      intro c hc
      rcases hs with h | h | h <;> subst h <;> simp at hc <;> subst hc <;> rfl
    have tw3 := takeWhile_all_append (p := Char.isDigit) (sep ++ (d2 ++ f2)) hgall hgh
    simp only [List.cons_append, List.head?_cons, List.tail_cons]
    rw [if_pos trivial, tw3.1, tw3.2]
    have hge : g.isEmpty = false := by
      cases g with
      | nil => exact absurd rfl hgne
      | cons a t => rfl
    rw [hge]
    simp only [Bool.false_eq_true, if_false]
    rw [sepThen2_concat h2 hs]

theorem searchRangeL_cons_some {c : Char} {r : List Char} {res : List Char × List Char}
    (h : matchRangeAt (c :: r) = some res) : searchRangeL (c :: r) = some res := by
  unfold searchRangeL
  rw [h]

theorem mk_data_eq (s : String) : String.mk s.data = s := by
  cases s
  rfl

theorem simpleNum_shape {s : String} (h : simpleNum s = true) :
    numShapeL (s.data.takeWhile Char.isDigit) (s.data.dropWhile Char.isDigit) ∧
      s.data = s.data.takeWhile Char.isDigit ++ s.data.dropWhile Char.isDigit := by
  refine ⟨?_, (List.takeWhile_append_dropWhile ..).symm⟩
  unfold simpleNum at h
  simp only [Bool.and_eq_true, Bool.or_eq_true, Bool.not_eq_eq_eq_not, Bool.not_true,
    decide_eq_true_eq] at h
  obtain ⟨hd, hr⟩ := h
  refine ⟨?_, all_takeWhile _ _, ?_⟩
  · intro hnil
    rw [hnil] at hd
    simp at hd
  · rcases hr with hr | ⟨⟨hh, ht⟩, hall⟩
    · left
      simpa [List.isEmpty_iff] using hr
    · right
      cases hdr : s.data.dropWhile Char.isDigit with
      | nil => rw [hdr] at hh; simp at hh
      | cons c cs =>
          rw [hdr] at hh ht hall
          simp only [List.head?_cons, Option.some.injEq] at hh
          refine ⟨cs, by rw [hh], ?_, by simpa using hall⟩
          intro hnil
          rw [hnil] at ht
          simp at ht

theorem rangeTo_concat {a b sepStr : String} (ha : simpleNum a = true)
    (hb : simpleNum b = true) (hs : sepForm sepStr.data) :
    rangeTo (a ++ sepStr ++ b) = some (a ++ " to " ++ b) := by
  obtain ⟨sha, hadec⟩ := simpleNum_shape ha
  obtain ⟨shb, hbdec⟩ := simpleNum_shape hb
  have hsplit : (a ++ sepStr ++ b).data =
      a.data.takeWhile Char.isDigit ++
        (a.data.dropWhile Char.isDigit ++
          (sepStr.data ++ (b.data.takeWhile Char.isDigit ++ b.data.dropWhile Char.isDigit))) := by
    show ((a ++ sepStr) ++ b).data = _
    rw [String.data_append, String.data_append]
    conv_lhs => rw [hadec, hbdec]
    simp only [List.append_assoc]
  have hm := matchRangeAt_concat sha shb hs
  obtain ⟨hne1, -, -⟩ := sha
  unfold rangeTo searchRange
  rw [hsplit]
  cases hd : a.data.takeWhile Char.isDigit with
  | nil => exact absurd hd hne1
  | cons c t =>
      rw [hd] at hm
      rw [List.cons_append] at hm ⊢
      rw [searchRangeL_cons_some hm]
      simp only [Option.map_some']
      congr 1
      rw [← hd, ← hadec, ← hbdec, mk_data_eq, mk_data_eq]

/-! ### Value-scan and splitter-output lemmas -/

theorem firstNumIdxGo_some {tokens : List String} :
    ∀ n lo j, firstNumIdxGo tokens lo n = some j →
      lo ≤ j ∧ j < tokens.length ∧ matchNumber (tokens.getD j "") = true := by
  intro n
  induction n with
  | zero => intro lo j h; simp [firstNumIdxGo] at h
  | succ n ih =>
      intro lo j h
      unfold firstNumIdxGo at h
      by_cases hc : (decide (lo < tokens.length) && matchNumber (tokens.getD lo "")) = true
      · rw [if_pos hc] at h
        cases h
        simp only [Bool.and_eq_true, decide_eq_true_eq] at hc
        exact ⟨le_refl _, hc.1, hc.2⟩
      · rw [if_neg hc] at h
        obtain ⟨h1, h2, h3⟩ := ih (lo + 1) j h
        exact ⟨by omega, h2, h3⟩

theorem firstNumIdxGo_none {tokens : List String} :
    ∀ n lo, (∀ j, lo ≤ j → j < tokens.length → matchNumber (tokens.getD j "") = false) →
      firstNumIdxGo tokens lo n = none := by
  intro n
  induction n with
  | zero => intro lo _; rfl
  | succ n ih =>
      intro lo h
      unfold firstNumIdxGo
      have hc : ¬((decide (lo < tokens.length) && matchNumber (tokens.getD lo "")) = true) := by
        simp only [Bool.and_eq_true, decide_eq_true_eq]
        rintro ⟨h1, h2⟩
        rw [h lo (le_refl _) h1] at h2
        cases h2
      rw [if_neg hc]
      exact ih (lo + 1) (fun j hj hl => h j (by omega) hl)

theorem getD_mem : ∀ (l : List String) (j : Nat), j < l.length → l.getD j "" ∈ l := by
  intro l
  induction l with
  | nil => intro j h; simp at h
  | cons a t ih =>
      intro j h
      cases j with
      | zero => simp [List.getD_cons_zero]
      | succ k =>
          rw [List.getD_cons_succ]
          exact List.mem_cons_of_mem _ (ih k (by simpa using h))

theorem firstNumIdx_lt {tokens : List String} {e : Nat}
    (h : firstNumIdx tokens e < tokens.length) :
    matchNumber (tokens.getD (firstNumIdx tokens e) "") = true ∧
      e ≤ firstNumIdx tokens e := by
  unfold firstNumIdx firstNumIdxBdd at h ⊢
  cases hb : firstNumIdxGo tokens e (tokens.length - e) with
  | none => rw [hb] at h; simp at h
  | some j0 =>
      simp only [Option.getD_some]
      obtain ⟨h1, h2, h3⟩ := firstNumIdxGo_some _ _ _ hb
      exact ⟨h3, h1⟩

theorem lftFindValue_some {tokens : List String} {e j : Nat}
    (h : lftFindValue tokens e = some j) :
    e ≤ j ∧ j < tokens.length ∧ matchNumber (tokens.getD j "") = true := by
  unfold lftFindValue firstNumIdxBdd at h
  cases h1 : firstNumIdxGo tokens e (Nat.min (e + 4) tokens.length - e) with
  | some j1 =>
      rw [h1] at h
      cases h
      exact firstNumIdxGo_some _ _ _ h1
  | none =>
      rw [h1] at h
      obtain ⟨ha, hb, hc⟩ := firstNumIdxGo_some _ _ _ h
      exact ⟨by omega, hb, hc⟩

theorem cbcMatchBody_some {tokens : List String} {name : String} {e : Nat} {r : Record}
    {i2 : Nat} (h : cbcMatchBody tokens name e = (some r, i2)) :
    r.parameter = name ∧ name ≠ "" ∧ matchNumber r.value = true ∧ r.value ∈ tokens := by
  unfold cbcMatchBody at h
  dsimp only at h
  by_cases hlt : firstNumIdx tokens e < tokens.length
  · rw [if_pos hlt] at h
    dsimp only at h
    by_cases hn : name = ""
    · rw [if_neg (by simp [hn])] at h
      simp at h
    · rw [if_pos hn] at h
      obtain ⟨hnum, hle⟩ := firstNumIdx_lt hlt
      simp only [Prod.mk.injEq, Option.some.injEq] at h
      obtain ⟨hr, -⟩ := h
      subst hr
      exact ⟨rfl, hn, hnum, getD_mem _ _ hlt⟩
  · rw [if_neg hlt] at h
    simp at h

theorem lftMatchBody_some {tokens : List String} {name : String} {e : Nat} {r : Record}
    {i2 : Nat} (h : lftMatchBody tokens name e = (some r, i2)) :
    r.parameter = name ∧ name ≠ "" ∧ matchNumber r.value = true ∧ r.value ∈ tokens := by
  unfold lftMatchBody at h
  dsimp only at h
  cases hv : lftFindValue tokens e with
  | none => rw [hv] at h; simp at h
  | some j =>
      rw [hv] at h
      dsimp only at h
      obtain ⟨-, hjl, hnum⟩ := lftFindValue_some hv
      by_cases hn : name = ""
      · rw [if_neg (by simp [hn])] at h
        simp at h
      · rw [if_pos hn] at h
        simp only [Prod.mk.injEq, Option.some.injEq] at h
        obtain ⟨hr, -⟩ := h
        subst hr
        exact ⟨rfl, hn, hnum, getD_mem _ _ hjl⟩

theorem cbcLoop_mem {tokens : List String} :
    ∀ fuel i r, r ∈ cbcLoop tokens fuel i →
      r.parameter ≠ "" ∧ matchNumber r.value = true ∧ r.value ∈ tokens := by
  intro fuel
  induction fuel with
  | zero => intro i r h; simp [cbcLoop] at h
  | succ n ih =>
      intro i r h
      unfold cbcLoop at h
      by_cases hi : i < tokens.length
      · rw [if_pos hi] at h
        cases hm : cbcFindMatch tokens i with
        | none => rw [hm] at h; exact ih _ _ h
        | some m =>
            rw [hm] at h
            obtain ⟨name, s, e⟩ := m
            dsimp only at h
            cases hb : cbcMatchBody tokens name e with
            | mk res i2 =>
                rw [hb] at h
                cases res with
                | some rec =>
                    rcases List.mem_cons.mp h with h | h
                    · subst h
                      obtain ⟨hp, hn, hv, hmem⟩ := cbcMatchBody_some hb
                      exact ⟨by rw [hp]; exact hn, hv, hmem⟩
                    · exact ih _ _ h
                | none => exact ih _ _ h
      · rw [if_neg hi] at h
        simp at h

theorem cbcTlcGo_mem {tokens : List String} :
    ∀ ts idx r, r ∈ cbcTlcGo tokens ts idx →
      r.parameter = "Total Leucocyte Count" ∧ matchNumber r.value = true ∧
        r.value ∈ tokens := by
  intro ts
  induction ts with
  | nil => intro idx r h; simp [cbcTlcGo] at h
  | cons t rest ih =>
      intro idx r h
      unfold cbcTlcGo at h
      rcases List.mem_append.mp h with h | h
      · by_cases ha : cbcTlcAliases.any (fun a => pyLower t == pyLower a) = true
        · rw [if_pos ha] at h
          cases hb : firstNumIdxBdd tokens (idx + 1) tokens.length with
          | none => rw [hb] at h; simp at h
          | some j =>
              rw [hb] at h
              dsimp only at h
              rcases List.mem_singleton.mp h with h
              subst h
              unfold firstNumIdxBdd at hb
              obtain ⟨-, hjl, hnum⟩ := firstNumIdxGo_some _ _ _ hb
              exact ⟨rfl, hnum, getD_mem _ _ hjl⟩
        · rw [if_neg ha] at h
          simp at h
      · exact ih _ _ h

theorem cbcSplitRow_mem {tokens : List String} {r : Record}
    (h : r ∈ cbcSplitRow tokens) :
    r.parameter ≠ "" ∧ matchNumber r.value = true ∧ r.value ∈ tokens := by
  unfold cbcSplitRow at h
  rcases List.mem_append.mp h with h | h
  · exact cbcLoop_mem _ _ _ h
  · obtain ⟨hp, hv, hmem⟩ := cbcTlcGo_mem _ _ _ h
    refine ⟨?_, hv, hmem⟩
    rw [hp]
    decide

theorem lftLoop_mem {tokens : List String} :
    ∀ fuel i r, r ∈ lftLoop tokens fuel i →
      r.parameter ≠ "" ∧ matchNumber r.value = true ∧ r.value ∈ tokens := by
  intro fuel
  induction fuel with
  | zero => intro i r h; simp [lftLoop] at h
  | succ n ih =>
      intro i r h
      unfold lftLoop at h
      by_cases hi : i < tokens.length
      · rw [if_pos hi] at h
        dsimp only at h
        cases hm : (lftBestAt tokens i).2 with
        | none => rw [hm] at h; exact ih _ _ h
        | some m =>
            rw [hm] at h
            obtain ⟨name, s, e⟩ := m
            dsimp only at h
            by_cases hsc : (80 : ℚ) ≤ (lftBestAt tokens i).1
            · rw [if_pos hsc] at h
              cases hb : lftMatchBody tokens name e with
              | mk res i2 =>
                  rw [hb] at h
                  cases res with
                  | some rec =>
                      rcases List.mem_cons.mp h with h | h
                      · subst h
                        obtain ⟨hp, hn, hv, hmem⟩ := lftMatchBody_some hb
                        exact ⟨by rw [hp]; exact hn, hv, hmem⟩
                      · exact ih _ _ h
                  | none => exact ih _ _ h
            · rw [if_neg hsc] at h
              exact ih _ _ h
      · rw [if_neg hi] at h
        simp at h

theorem lftProteinValue_some {tokens : List String} {nextRow : Option (List String)}
    {v : String} (h : lftProteinValue tokens nextRow = some v) :
    matchNumber v = true ∧ (v ∈ tokens ∨ v ∈ nextRow.getD []) := by
  unfold lftProteinValue at h
  cases hv : tokens.find? matchNumber with
  | some v0 =>
      rw [hv] at h
      obtain rfl := Option.some.inj h
      refine ⟨by simpa using List.find?_some hv, Or.inl (List.mem_of_find?_eq_some hv)⟩
  | none =>
      rw [hv] at h
      cases nextRow with
      | none => simp at h
      | some nt =>
          dsimp only at h
          refine ⟨by simpa using List.find?_some h,
            Or.inr (by simpa using List.mem_of_find?_eq_some h)⟩

theorem lftBiliParam_some {tokens : List String} {nextRow : Option (List String)}
    {p : String} (h : lftBiliParam tokens nextRow = some p) : p ≠ "" := by
  unfold lftBiliParam at h
  dsimp only at h
  split at h
  · obtain rfl := Option.some.inj h
    decide
  · split at h
    · obtain rfl := Option.some.inj h
      decide
    · split at h
      · obtain rfl := Option.some.inj h
        decide
      · cases h

theorem lftBiliBranch_some {tokens : List String} {nextRow : Option (List String)}
    {r : Record} (h : lftBiliBranch tokens nextRow = some r) :
    r.parameter ≠ "" ∧ matchNumber r.value = true ∧ r.value ∈ tokens := by
  unfold lftBiliBranch at h
  split at h
  · dsimp only at h
    cases hp : lftBiliParam tokens nextRow with
    | none => rw [hp] at h; simp at h
    | some p =>
        rw [hp] at h
        cases hv : tokens.find? matchNumber with
        | none => rw [hv] at h; simp at h
        | some v =>
            rw [hv] at h
            dsimp only at h
            rw [if_pos (lftBiliParam_some hp)] at h
            obtain rfl := Option.some.inj h
            exact ⟨lftBiliParam_some hp, by simpa using List.find?_some hv,
              List.mem_of_find?_eq_some hv⟩
  · cases h

theorem lftProteinBranch_some {tokens : List String} {nextRow : Option (List String)}
    {r : Record} (h : lftProteinBranch tokens nextRow = some r) :
    r.parameter ≠ "" ∧ matchNumber r.value = true ∧
      (r.value ∈ tokens ∨ r.value ∈ nextRow.getD []) := by
  unfold lftProteinBranch at h
  split at h
  · dsimp only at h
    split at h
    · cases hv : lftProteinValue tokens nextRow with
      | none => rw [hv] at h; simp at h
      | some v =>
          rw [hv] at h
          obtain rfl := Option.some.inj h
          obtain ⟨h1, h2⟩ := lftProteinValue_some hv
          refine ⟨?_, h1, h2⟩
          show ("Total Protein" : String) ≠ ""
          decide
    · cases h
  · cases h

theorem lftSplitRow_mem {tokens : List String} {nextRow : Option (List String)}
    {r : Record} (h : r ∈ lftSplitRow tokens nextRow) :
    r.parameter ≠ "" ∧ matchNumber r.value = true ∧
      (r.value ∈ tokens ∨ r.value ∈ nextRow.getD []) := by
  unfold lftSplitRow at h
  cases h1 : lftBiliBranch tokens nextRow with
  | some rec =>
      rw [h1] at h
      rcases List.mem_singleton.mp h with h
      subst h
      obtain ⟨ha, hb, hc⟩ := lftBiliBranch_some h1
      exact ⟨ha, hb, Or.inl hc⟩
  | none =>
      rw [h1] at h
      cases h2 : lftProteinBranch tokens nextRow with
      | some rec =>
          rw [h2] at h
          rcases List.mem_singleton.mp h with h
          subst h
          exact lftProteinBranch_some h2
      | none =>
          rw [h2] at h
          obtain ⟨ha, hb, hc⟩ := lftLoop_mem _ _ _ h
          exact ⟨ha, hb, Or.inl hc⟩

theorem firstNumIdx_none {tokens : List String} {e : Nat}
    (h : ∀ j, e ≤ j → j < tokens.length → matchNumber (tokens.getD j "") = false) :
    firstNumIdx tokens e = tokens.length := by
  unfold firstNumIdx firstNumIdxBdd
  rw [firstNumIdxGo_none _ _ h]
  rfl

theorem lftFindValue_none {tokens : List String} {e : Nat}
    (h : ∀ j, e ≤ j → j < tokens.length → matchNumber (tokens.getD j "") = false) :
    lftFindValue tokens e = none := by
  unfold lftFindValue firstNumIdxBdd
  rw [firstNumIdxGo_none _ _ h, firstNumIdxGo_none _ _ (fun j hj hl => h j (by omega) hl)]

theorem lftMatchBody_noValue {tokens : List String} (name : String) {e : Nat}
    (h : ∀ j, e ≤ j → j < tokens.length → matchNumber (tokens.getD j "") = false) :
    lftMatchBody tokens name e = (none, e + 1) := by
  unfold lftMatchBody
  rw [lftFindValue_none h]

theorem cbcMatchBody_noValue {tokens : List String} (name : String) {e : Nat}
    (h : ∀ j, e ≤ j → j < tokens.length → matchNumber (tokens.getD j "") = false) :
    cbcMatchBody tokens name e = (none, tokens.length + 1) := by
  unfold cbcMatchBody
  rw [firstNumIdx_none h]
  dsimp only
  rw [if_neg (lt_irrefl _)]

/-- C3 (confirmed): in both row splitters, when an accepted alias match
with span end `e` finds no numeric-grammar token anywhere at or after
`e` (the value windows jointly cover exactly those positions), the match
body emits no record and moves the cursor strictly past the alias span
(`end+1` in the LFT splitter, one past the row end in the CBC splitter);
and every record either splitter ever emits carries a nonempty parameter
name and a `NUMBER_RE` value. -/
theorem claim_C3_theorem :
    (∀ (tokens : List String) (name : String) (e : Nat),
      (∀ j, e ≤ j → j < tokens.length → matchNumber (tokens.getD j "") = false) →
      lftMatchBody tokens name e = (none, e + 1) ∧ e < e + 1) ∧
    (∀ (tokens : List String) (name : String) (e : Nat), e ≤ tokens.length →
      (∀ j, e ≤ j → j < tokens.length → matchNumber (tokens.getD j "") = false) →
      cbcMatchBody tokens name e = (none, tokens.length + 1) ∧ e < tokens.length + 1) ∧
    (∀ (tokens : List String) (r : Record), r ∈ cbcSplitRow tokens →
      r.parameter ≠ "" ∧ matchNumber r.value = true) ∧
    (∀ (tokens : List String) (nextRow : Option (List String)) (r : Record),
      r ∈ lftSplitRow tokens nextRow →
      r.parameter ≠ "" ∧ matchNumber r.value = true) := by
  refine ⟨?_, ?_, ?_, ?_⟩
  · intro tokens name e h
    exact ⟨lftMatchBody_noValue name h, by omega⟩
  · intro tokens name e he h
    exact ⟨cbcMatchBody_noValue name h, by omega⟩
  · intro tokens r h
    obtain ⟨h1, h2, -⟩ := cbcSplitRow_mem h
    exact ⟨h1, h2⟩
  · intro tokens nextRow r h
    obtain ⟨h1, h2, -⟩ := lftSplitRow_mem h
    exact ⟨h1, h2⟩

/-- Witness for C3 at concrete inputs: an accepted match at the end of a
one-token row has no value window left, and a concrete split emits a
well-formed record. -/
theorem claim_C3_witness :
    (lftMatchBody ["sgot"] "SGOT (AST)" 1 = (none, 2) ∧ 1 < 2) ∧
    (cbcMatchBody ["wbc"] "Total Leucocyte Count" 1 = (none, 2) ∧ 1 < 2) ∧
    (({ parameter := "Haemoglobin", value := "12.5", unit := "g/dL", range := "13 - 17" } : Record).parameter ≠ "" ∧
      matchNumber ({ parameter := "Haemoglobin", value := "12.5", unit := "g/dL", range := "13 - 17" } : Record).value = true) :=
  ⟨claim_C3_theorem.1 ["sgot"] "SGOT (AST)" 1
      (by intro j h1 h2; simp at h1 h2; omega),
   claim_C3_theorem.2.1 ["wbc"] "Total Leucocyte Count" 1 (by decide)
      (by intro j h1 h2; simp at h1 h2; omega),
   claim_C3_theorem.2.2.1 ["Haemoglobin", "12.5"] { parameter := "Haemoglobin", value := "12.5", unit := "g/dL", range := "13 - 17" }
      (by decide)⟩

/-- C7 (confirmed): the numeric grammar accepts `"12,345.6"`, rejects
`"12.3.4"` and `"abc"`, and both splitters emit value tokens verbatim
(every record's value is a token of the row, or of the next row for the
LFT protein special case). -/
theorem claim_C7_theorem :
    matchNumber "12,345.6" = true ∧ matchNumber "12.3.4" = false ∧
    matchNumber "abc" = false ∧
    (∀ (tokens : List String) (r : Record), r ∈ cbcSplitRow tokens → r.value ∈ tokens) ∧
    (∀ (tokens : List String) (nextRow : Option (List String)) (r : Record),
      r ∈ lftSplitRow tokens nextRow → r.value ∈ tokens ∨ r.value ∈ nextRow.getD []) := by
  refine ⟨by decide, by decide, by decide, ?_, ?_⟩
  · intro tokens r h
    exact (cbcSplitRow_mem h).2.2
  · intro tokens nextRow r h
    exact (lftSplitRow_mem h).2.2

/-- Witness for C7 at a concrete split. -/
theorem claim_C7_witness :
    ({ parameter := "Haemoglobin", value := "12.5", unit := "g/dL", range := "13 - 17" } : Record).value ∈ ["Haemoglobin", "12.5"] ∧
    (({ parameter := "SGOT (AST)", value := "35", unit := "U/L", range := "5 - 40" } : Record).value ∈ ["sgot", "35"] ∨
      ({ parameter := "SGOT (AST)", value := "35", unit := "U/L", range := "5 - 40" } : Record).value ∈ (none : Option (List String)).getD []) :=
  ⟨claim_C7_theorem.2.2.2.1 ["Haemoglobin", "12.5"] { parameter := "Haemoglobin", value := "12.5", unit := "g/dL", range := "13 - 17" }
      (by decide),
   claim_C7_theorem.2.2.2.2 ["sgot", "35"] none { parameter := "SGOT (AST)", value := "35", unit := "U/L", range := "5 - 40" }
      (by decide)⟩

/-- C10 (corrected): `NUMBER_RE` indeed rejects every all-digit token of
four or more digits, and splitter record values always satisfy it; but
range bounds come from `RANGE_RE`, whose `\d+` bounds are unrestricted,
so an ungrouped multi-digit integer can appear as a range bound (see the
counterexample). -/
theorem claim_C10_theorem :
    (∀ s : String, s.data ≠ [] → s.data.all Char.isDigit = true →
      4 ≤ s.data.length → matchNumber s = false) ∧
    (∀ (tokens : List String) (r : Record), r ∈ cbcSplitRow tokens →
      matchNumber r.value = true) ∧
    (∀ (tokens : List String) (nextRow : Option (List String)) (r : Record),
      r ∈ lftSplitRow tokens nextRow → matchNumber r.value = true) := by
  refine ⟨?_, ?_, ?_⟩
  · intro s hne hall hlen
    have htw : s.data.takeWhile Char.isDigit = s.data := by
      have := takeWhile_all_append (p := Char.isDigit) [] hall
        (by intro c hc; simp at hc)
      simpa using this.1
    have h3 : decide (s.data.length ≤ 3) = false := by
      simp only [decide_eq_false_iff_not]
      omega
    unfold matchNumber
    dsimp only
    rw [htw, h3]
    simp
  · intro tokens r h
    exact (cbcSplitRow_mem h).2.1
  · intro tokens nextRow r h
    exact (lftSplitRow_mem h).2.1

/-- Witness for C10: `"4000"` is rejected, and a concrete CBC record's
value satisfies the grammar. -/
theorem claim_C10_witness :
    matchNumber "4000" = false ∧
    matchNumber ({ parameter := "Haemoglobin", value := "12.5", unit := "g/dL", range := "13 - 17" } : Record).value = true :=
  ⟨claim_C10_theorem.1 "4000" (by decide) (by decide) (by decide),
   claim_C10_theorem.2.1 ["Haemoglobin", "12.5"] { parameter := "Haemoglobin", value := "12.5", unit := "g/dL", range := "13 - 17" }
      (by decide)⟩

/-- Counterexample for C10 as stated: the four-digit ungrouped `"4000"`
fails `NUMBER_RE`, yet the CBC splitter hands the caller records whose
range is `"4000 to 10000"` — `RANGE_RE` picked up `4000` and `10000` as
range bounds. -/
theorem claim_C10_counterexample :
    matchNumber "4000" = false ∧
    (cbcSplitRow ["wbc", "5", "4000-10000"]).map Record.range =
      ["4000 to 10000", "4000 to 10000"] := by
  constructor
  · decide
  · decide

/-! ### Deduplication lemmas (C1) -/

theorem contains_iff (l : List String) (a : String) : l.contains a = true ↔ a ∈ l := by
  induction l with
  | nil => simp
  | cons x xs ih => simp [List.contains_cons, Bool.or_eq_true, beq_iff_eq, ih, List.mem_cons]

theorem dedupGo_not_seen {l : List Record} :
    ∀ (seen : List String) (r : Record), r ∈ dedupGo seen l →
      pyLower r.parameter ∉ seen := by
  induction l with
  | nil => intro seen r h; simp [dedupGo] at h
  | cons x xs ih =>
      intro seen r h
      unfold dedupGo at h
      by_cases hc : seen.contains (pyLower x.parameter) = true
      · rw [if_pos hc] at h
        exact ih seen r h
      · rw [if_neg hc] at h
        rcases List.mem_cons.mp h with h | h
        · subst h
          intro hin
          exact hc ((contains_iff _ _).mpr hin)
        · have hmem := ih _ r h
          intro hin
          exact hmem (List.mem_cons_of_mem _ hin)

theorem dedupGo_pairwise (l : List Record) :
    ∀ seen : List String, (dedupGo seen l).Pairwise
      (fun a b => pyLower a.parameter ≠ pyLower b.parameter) := by
  induction l with
  | nil => intro seen; exact List.Pairwise.nil
  | cons x xs ih =>
      intro seen
      unfold dedupGo
      by_cases hc : seen.contains (pyLower x.parameter) = true
      · rw [if_pos hc]
        exact ih seen
      · rw [if_neg hc]
        refine List.Pairwise.cons ?_ (ih _)
        intro b hb heq
        have hnot := dedupGo_not_seen _ b hb
        exact hnot (by rw [← heq]; exact List.mem_cons_self _ _)

theorem dedupGo_find {l : List Record} :
    ∀ (seen : List String) (r : Record), r ∈ dedupGo seen l →
      l.find? (fun x => pyLower x.parameter == pyLower r.parameter) = some r := by
  induction l with
  | nil => intro seen r h; simp [dedupGo] at h
  | cons x xs ih =>
      intro seen r h
      unfold dedupGo at h
      by_cases hc : seen.contains (pyLower x.parameter) = true
      · rw [if_pos hc] at h
        have hfind := ih seen r h
        have hnotin := dedupGo_not_seen seen r h
        have hxin : pyLower x.parameter ∈ seen := (contains_iff _ _).mp hc
        have hne : (pyLower x.parameter == pyLower r.parameter) = false := by
          rw [beq_eq_false_iff_ne]
          intro heq
          exact hnotin (heq ▸ hxin)
        rw [List.find?_cons]
        simp only [hne]
        exact hfind
      · rw [if_neg hc] at h
        rcases List.mem_cons.mp h with h | h
        · subst h
          rw [List.find?_cons]
          simp
        · have hfind := ih _ r h
          have hnotin := dedupGo_not_seen _ r h
          have hne : (pyLower x.parameter == pyLower r.parameter) = false := by
            rw [beq_eq_false_iff_ne]
            intro heq
            exact hnotin (by rw [← heq]; exact List.mem_cons_self _ _)
          rw [List.find?_cons]
          simp only [hne]
          exact hfind

/-- C1 (corrected): the LFT path deduplicates its extracted list by
lowercased parameter name — the result has pairwise-distinct keys and
every surviving record is exactly the first pre-dedup occurrence of its
key — but the CBC path performs no deduplication at all (see the
counterexample, where the caller receives two `Haemoglobin` records). -/
theorem claim_C1_theorem :
    (∀ rowsTokens pre, lftPreDedup rowsTokens = some pre →
      extractLftRows rowsTokens = some (dedupRecords pre)) ∧
    (∀ l : List Record, (dedupRecords l).Pairwise
      (fun a b => pyLower a.parameter ≠ pyLower b.parameter)) ∧
    (∀ (l : List Record) (r : Record), r ∈ dedupRecords l →
      l.find? (fun x => pyLower x.parameter == pyLower r.parameter) = some r) := by
  refine ⟨?_, fun l => dedupGo_pairwise l [], fun l r h => dedupGo_find [] r h⟩
  intro rowsTokens pre h
  unfold extractLftRows
  rw [h]
  rfl

/-- Witness for C1 at concrete inputs, including a full LFT extraction. -/
theorem claim_C1_witness :
    (lftPreDedup [["sgot", "35"]] = some ([{ parameter := "SGOT (AST)", value := "35", unit := "U/L", range := "5 - 40" }] : List Record) ∧
      extractLftRows [["sgot", "35"]] = some (dedupRecords ([{ parameter := "SGOT (AST)", value := "35", unit := "U/L", range := "5 - 40" }] : List Record))) ∧
    (dedupRecords ([{ parameter := "Hct", value := "40", unit := "%", range := "40 - 50" }, { parameter := "HCT", value := "41", unit := "%", range := "40 - 50" }] : List Record)).Pairwise
      (fun a b => pyLower a.parameter ≠ pyLower b.parameter) ∧
    ([{ parameter := "Hct", value := "40", unit := "%", range := "40 - 50" }, { parameter := "HCT", value := "41", unit := "%", range := "40 - 50" }] : List Record).find?
      (fun x => pyLower x.parameter == pyLower ({ parameter := "Hct", value := "40", unit := "%", range := "40 - 50" } : Record).parameter) =
      some { parameter := "Hct", value := "40", unit := "%", range := "40 - 50" } :=
  ⟨⟨by decide, claim_C1_theorem.1 [["sgot", "35"]] ([{ parameter := "SGOT (AST)", value := "35", unit := "U/L", range := "5 - 40" }] : List Record) (by decide)⟩,
   claim_C1_theorem.2.1 ([{ parameter := "Hct", value := "40", unit := "%", range := "40 - 50" }, { parameter := "HCT", value := "41", unit := "%", range := "40 - 50" }] : List Record),
   claim_C1_theorem.2.2 ([{ parameter := "Hct", value := "40", unit := "%", range := "40 - 50" }, { parameter := "HCT", value := "41", unit := "%", range := "40 - 50" }] : List Record) { parameter := "Hct", value := "40", unit := "%", range := "40 - 50" } (by decide)⟩

/-- Counterexample for C1 as stated: the CBC extraction hands the caller
a list with two records whose parameter fields are equal — no
deduplication happens on the CBC path. -/
theorem claim_C1_counterexample :
    (extractCbcRows [["Haemoglobin", "12.5"], ["Haemoglobin", "13.0"]]).map Record.parameter
      = ["Haemoglobin", "Haemoglobin"] := by
  decide

/-! ### Best-candidate fold lemmas (C2) -/

theorem lftBestStep_fst_le (tokens : List String) (i : Nat)
    (acc : ℚ × Option (String × Nat × Nat)) (t : String × String × List String) :
    acc.1 ≤ (lftBestStep tokens i acc t).1 := by
  unfold lftBestStep
  dsimp only
  by_cases h1 : i + t.2.2.length ≤ tokens.length
  · rw [if_pos h1]
    by_cases h2 : acc.1 < scoreAt t.2.2 tokens i
    · rw [if_pos h2]
      exact le_of_lt h2
    · rw [if_neg h2]
  · rw [if_neg h1]

theorem foldBest_fst_le (tokens : List String) (i : Nat) :
    ∀ (ts : List (String × String × List String)) acc,
      acc.1 ≤ (ts.foldl (lftBestStep tokens i) acc).1 := by
  intro ts
  induction ts with
  | nil => intro acc; exact le_refl _
  | cons t ts ih =>
      intro acc
      rw [List.foldl_cons]
      exact le_trans (lftBestStep_fst_le tokens i acc t) (ih _)

theorem foldBest_fst_cases (tokens : List String) (i : Nat) :
    ∀ (ts : List (String × String × List String)) acc,
      (ts.foldl (lftBestStep tokens i) acc).1 = acc.1 ∨
        ∃ t ∈ ts, i + t.2.2.length ≤ tokens.length ∧
          (ts.foldl (lftBestStep tokens i) acc).1 = scoreAt t.2.2 tokens i := by
  intro ts
  induction ts with
  | nil => intro acc; exact Or.inl rfl
  | cons t ts ih =>
      intro acc
      rw [List.foldl_cons]
      rcases ih (lftBestStep tokens i acc t) with h | ⟨t2, ht2, hle, heq⟩
      · by_cases h1 : i + t.2.2.length ≤ tokens.length
        · by_cases h2 : acc.1 < scoreAt t.2.2 tokens i
          · right
            refine ⟨t, List.mem_cons_self _ _, h1, ?_⟩
            rw [h]
            simp [lftBestStep, h1, h2]
          · left
            rw [h]
            simp [lftBestStep, h1, h2]
        · left
          rw [h]
          simp [lftBestStep, h1]
      · right
        exact ⟨t2, List.mem_cons_of_mem _ ht2, hle, heq⟩

theorem foldBest_fst_ge (tokens : List String) (i : Nat) :
    ∀ (ts : List (String × String × List String)) acc t, t ∈ ts →
      i + t.2.2.length ≤ tokens.length →
      scoreAt t.2.2 tokens i ≤ (ts.foldl (lftBestStep tokens i) acc).1 := by
  intro ts
  induction ts with
  | nil => intro acc t h; simp at h
  | cons t0 ts ih =>
      intro acc t ht hle
      rw [List.foldl_cons]
      rcases List.mem_cons.mp ht with h | h
      · subst h
        refine le_trans ?_ (foldBest_fst_le tokens i ts _)
        by_cases h2 : acc.1 < scoreAt t.2.2 tokens i
        · simp [lftBestStep, hle, h2]
        · simp [lftBestStep, hle, h2]
          exact not_lt.mp h2
      · exact ih _ t h hle

theorem foldBest_isSome (tokens : List String) (i : Nat) :
    ∀ (ts : List (String × String × List String)) acc,
      (ts.foldl (lftBestStep tokens i) acc) = acc ∨
        ((ts.foldl (lftBestStep tokens i) acc).2).isSome = true := by
  intro ts
  induction ts with
  | nil => intro acc; exact Or.inl rfl
  | cons t ts ih =>
      intro acc
      rw [List.foldl_cons]
      rcases ih (lftBestStep tokens i acc t) with h | h
      · rw [h]
        by_cases h1 : i + t.2.2.length ≤ tokens.length
        · by_cases h2 : acc.1 < scoreAt t.2.2 tokens i
          · right
            simp [lftBestStep, h1, h2]
          · left
            simp [lftBestStep, h1, h2]
        · left
          simp [lftBestStep, h1]
      · right
        exact h

/-- C2 (corrected): in the LFT splitter the per-candidate score is the
maximum of the direct, joined (lowered, colons stripped) and
reversed-token-order similarities, and a span is accepted exactly when
some candidate at the cursor reaches score 80; the CBC splitter,
however, accepts a span exactly when its lowered tokens equal an alias
token list verbatim (no fuzzy scoring; see the counterexample). -/
theorem claim_C2_theorem :
    (∀ (aliasToks tokens : List String) (i : Nat),
      scoreAt aliasToks tokens i =
        max (max (fuzzScore (joinSpace (((tokens.drop i).take aliasToks.length).map pyLower))
                    (joinSpace aliasToks))
                 (fuzzScore (dropChar ':'
                      (pyLower (joinSpace ((tokens.drop i).take aliasToks.length))))
                    (joinSpace aliasToks)))
            (fuzzScore (joinSpace (((tokens.drop i).take aliasToks.length).map pyLower).reverse)
               (joinSpace aliasToks))) ∧
    (∀ (tokens : List String) (i : Nat),
      (80 ≤ (lftBestAt tokens i).1 ∧ ((lftBestAt tokens i).2).isSome = true) ↔
        ∃ t ∈ lftAliasTuples, i + t.2.2.length ≤ tokens.length ∧
          80 ≤ scoreAt t.2.2 tokens i) ∧
    (∀ (tokens : List String) (i : Nat),
      (cbcFindMatch tokens i).isSome = true ↔
        ∃ t ∈ cbcAliasTuples, i + t.2.2.length ≤ tokens.length ∧
          ((tokens.drop i).take t.2.2.length).map pyLower = t.2.2) := by
  refine ⟨?_, ?_, ?_⟩
  · intro aliasToks tokens i
    have hify : ∀ x y : ℚ, (if x < y then y else x) = max x y := by
      intro x y
      split_ifs with h
      · exact (max_eq_right h.le).symm
      · exact (max_eq_left (not_lt.mp h)).symm
    unfold scoreAt
    dsimp only
    rw [hify, hify]
  · intro tokens i
    constructor
    · rintro ⟨hsc, hsome⟩
      rcases foldBest_fst_cases tokens i lftAliasTuples (0, none) with h | ⟨t, ht, hle, heq⟩
      · exfalso
        unfold lftBestAt at hsc
        rw [h] at hsc
        norm_num at hsc
      · exact ⟨t, ht, hle, by unfold lftBestAt at hsc; rw [heq] at hsc; exact hsc⟩
    · rintro ⟨t, ht, hle, hsc⟩
      have hge := foldBest_fst_ge tokens i lftAliasTuples (0, none) t ht hle
      constructor
      · exact le_trans hsc hge
      · rcases foldBest_isSome tokens i lftAliasTuples (0, none) with h | h
        · exfalso
          have h80 : (80 : ℚ) ≤
              (List.foldl (lftBestStep tokens i) (0, none) lftAliasTuples).1 :=
            le_trans hsc hge
          rw [h] at h80
          norm_num at h80
        · exact h
  · intro tokens i
    unfold cbcFindMatch
    rw [Option.isSome_map']
    rw [List.find?_isSome]
    constructor
    · rintro ⟨t, ht, hp⟩
      simp only [Bool.and_eq_true, decide_eq_true_eq, beq_iff_eq] at hp
      exact ⟨t, ht, hp.1, hp.2⟩
    · rintro ⟨t, ht, h1, h2⟩
      refine ⟨t, ht, ?_⟩
      simp only [Bool.and_eq_true, decide_eq_true_eq, beq_iff_eq]
      exact ⟨h1, h2⟩

/-- Counterexample for C2 as stated: in the CBC splitter, the row
`["haemoglobins", "12.5"]` has a candidate alias (`"haemoglobin"`)
whose best-of-three score is at least 80, yet no span is accepted and
the splitter emits nothing — CBC matching is exact, not fuzzy. -/
theorem claim_C2_counterexample :
    cbcSplitRow ["haemoglobins", "12.5"] = [] ∧
    ("Haemoglobin", "haemoglobin", ["haemoglobin"]) ∈ cbcAliasTuples ∧
    0 + (["haemoglobin"] : List String).length ≤
      (["haemoglobins", "12.5"] : List String).length ∧
    (80 : ℚ) ≤ scoreAt ["haemoglobin"] ["haemoglobins", "12.5"] 0 := by
  refine ⟨by decide, by decide, by decide, by decide⟩

/-! ### Row merger (C4) -/

/-- C4 (confirmed): the targeted merge scans sequentially, the
data-only and orphan-label predicates are exactly as described, a
data-only row immediately followed by an orphan-label row is replaced
by the concatenated row (section from the data-only row) with the scan
advancing two positions, any other row is kept with the scan advancing
one position, and the recursion continues on the untouched remainder,
so no row takes part in two merges. -/
theorem claim_C4_theorem :
    (∀ r : Row, isDataOnly r = true ↔
      ((∃ t ∈ r.tokens, matchNumber t = true) ∧
        ∀ t ∈ r.tokens, matchNumber t = false → pyIsAlpha t = false)) ∧
    (∀ (aliases : List String) (r : Row), isOrphanLabel aliases r = true ↔
      ((∀ t ∈ r.tokens, matchNumber t = false) ∧
        ∃ t ∈ r.tokens, ∃ a ∈ aliases, pyLower t = pyLower a)) ∧
    (∀ (aliases : List String) (r1 r2 : Row) (rest : List Row),
      isDataOnly r1 = true → isOrphanLabel aliases r2 = true →
      mergeRows aliases (r1 :: r2 :: rest) = mergeTwo r1 r2 :: mergeRows aliases rest) ∧
    (∀ (aliases : List String) (r1 r2 : Row) (rest : List Row),
      ¬(isDataOnly r1 = true ∧ isOrphanLabel aliases r2 = true) →
      mergeRows aliases (r1 :: r2 :: rest) = r1 :: mergeRows aliases (r2 :: rest)) ∧
    (∀ r1 r2 : Row, (mergeTwo r1 r2).tokens = r1.tokens ++ r2.tokens ∧
      (mergeTwo r1 r2).sect = r1.sect) := by
  refine ⟨?_, ?_, ?_, ?_, fun r1 r2 => ⟨rfl, rfl⟩⟩
  · intro r
    unfold isDataOnly
    simp only [Bool.and_eq_true, List.any_eq_true, List.all_eq_true, List.mem_filter,
      Bool.not_eq_true']
    constructor
    · rintro ⟨⟨t, ht, hn⟩, hall⟩
      exact ⟨⟨t, ht, hn⟩, fun t2 ht2 hf => hall t2 ⟨ht2, by simp [hf]⟩⟩
    · rintro ⟨⟨t, ht, hn⟩, hall⟩
      refine ⟨⟨t, ht, hn⟩, fun t2 ht2 => hall t2 ht2.1 (by simpa using ht2.2)⟩
  · intro aliases r
    unfold isOrphanLabel
    simp only [Bool.and_eq_true, List.any_eq_true, List.all_eq_true, Bool.not_eq_true',
      beq_iff_eq]
  · intro aliases r1 r2 rest h1 h2
    show mergeGo aliases r1 (r2 :: rest) = _
    unfold mergeGo
    rw [if_pos (by simp [h1, h2])]
    cases rest with
    | nil => rfl
    | cons r3 rest2 => rfl
  · intro aliases r1 r2 rest h
    show mergeGo aliases r1 (r2 :: rest) = _
    unfold mergeGo
    rw [if_neg (by simpa [Bool.and_eq_true] using h)]
    rfl

/-- Witness for C4: the spec's own merge example — a data-only row
followed by the orphan label `Haemoglobin` merges, and a non-matching
pair does not. -/
theorem claim_C4_witness :
    mergeRows cbcAllAliases
        [{ tokens := ["12.5", "g/dL"] }, { tokens := ["Haemoglobin"] }] =
      [mergeTwo { tokens := ["12.5", "g/dL"] } { tokens := ["Haemoglobin"] }] ∧
    mergeRows cbcAllAliases
        [{ tokens := ["Haemoglobin"] }, { tokens := ["12.5", "g/dL"] }] =
      [{ tokens := ["Haemoglobin"] }, { tokens := ["12.5", "g/dL"] }] ∧
    (mergeTwo { tokens := ["12.5", "g/dL"] } { tokens := ["Haemoglobin"] }).tokens =
      ["12.5", "g/dL"] ++ ["Haemoglobin"] :=
  ⟨claim_C4_theorem.2.2.1 cbcAllAliases { tokens := ["12.5", "g/dL"] }
      { tokens := ["Haemoglobin"] } [] (by decide) (by decide),
   claim_C4_theorem.2.2.2.1 cbcAllAliases { tokens := ["Haemoglobin"] }
      { tokens := ["12.5", "g/dL"] } [] (by decide),
   (claim_C4_theorem.2.2.2.2 { tokens := ["12.5", "g/dL"] }
      { tokens := ["Haemoglobin"] }).1⟩

/-! ### Metadata backfill (C5) -/

theorem cbcMatchBody_backfill {tokens : List String} {name : String} {e : Nat}
    {r : Record} {i2 : Nat} (h : cbcMatchBody tokens name e = (some r, i2)) :
    (cbcWindowUnit tokens e = "" → r.unit = cbcMetaUnit name) ∧
    (cbcWindowUnit tokens e ≠ "" → r.unit = cbcWindowUnit tokens e) ∧
    (cbcWindowRange tokens e = "" → r.range = cbcMetaRange name) ∧
    (cbcWindowRange tokens e ≠ "" → r.range = cbcWindowRange tokens e) := by
  unfold cbcMatchBody at h
  dsimp only at h
  by_cases hlt : firstNumIdx tokens e < tokens.length
  · rw [if_pos hlt] at h
    dsimp only at h
    by_cases hn : name = ""
    · rw [if_neg (by simp [hn])] at h
      simp at h
    · rw [if_pos hn] at h
      simp only [Prod.mk.injEq, Option.some.injEq] at h
      obtain ⟨hr, -⟩ := h
      subst hr
      refine ⟨?_, ?_, ?_, ?_⟩ <;> intro hw <;> simp [hw]
  · rw [if_neg hlt] at h
    simp at h

theorem lftMatchBody_backfill {tokens : List String} {name : String} {e : Nat}
    {r : Record} {i2 : Nat} (h : lftMatchBody tokens name e = (some r, i2)) :
    (lftWindowUnit tokens e = "" → r.unit = normalizeUnit (lftMetaUnit name)) ∧
    (lftWindowUnit tokens e ≠ "" → r.unit = normalizeUnit (lftWindowUnit tokens e)) ∧
    (lftWindowRange tokens e = "" → r.range = lftMetaRange name) ∧
    (lftWindowRange tokens e ≠ "" → r.range = lftWindowRange tokens e) := by
  unfold lftMatchBody at h
  dsimp only at h
  cases hv : lftFindValue tokens e with
  | none => rw [hv] at h; simp at h
  | some j =>
      rw [hv] at h
      dsimp only at h
      by_cases hn : name = ""
      · rw [if_neg (by simp [hn])] at h
        simp at h
      · rw [if_pos hn] at h
        simp only [Prod.mk.injEq, Option.some.injEq] at h
        obtain ⟨hr, -⟩ := h
        subst hr
        refine ⟨?_, ?_, ?_, ?_⟩ <;> intro hw <;> simp [hw]

theorem normalizeUnit_meta (name : String) :
    normalizeUnit (lftMetaUnit name) = lftMetaUnit name := by
  unfold lftMetaUnit
  cases hf : lftMeta.find? (fun p => p.1 == name) with
  | none => decide
  | some p =>
      have hm := List.mem_of_find?_eq_some hf
      have hall : ∀ q ∈ lftMeta, normalizeUnit q.2.1 = q.2.1 := by decide
      simpa using hall p hm

/-- C5 (confirmed): in both splitter bodies an empty window-searched
unit (resp. range) is backfilled from the parameter's canonical
metadata, and a non-empty observed unit/range is kept (the LFT path
additionally normalises the unit, and unit normalisation fixes every
canonical metadata unit, so the backfilled LFT unit is the metadata
default itself). -/
theorem claim_C5_theorem :
    (∀ (tokens : List String) (name : String) (e : Nat) (r : Record) (i2 : Nat),
      cbcMatchBody tokens name e = (some r, i2) →
      ((cbcWindowUnit tokens e = "" → r.unit = cbcMetaUnit name) ∧
       (cbcWindowUnit tokens e ≠ "" → r.unit = cbcWindowUnit tokens e) ∧
       (cbcWindowRange tokens e = "" → r.range = cbcMetaRange name) ∧
       (cbcWindowRange tokens e ≠ "" → r.range = cbcWindowRange tokens e))) ∧
    (∀ (tokens : List String) (name : String) (e : Nat) (r : Record) (i2 : Nat),
      lftMatchBody tokens name e = (some r, i2) →
      ((lftWindowUnit tokens e = "" → r.unit = lftMetaUnit name) ∧
       (lftWindowUnit tokens e ≠ "" → r.unit = normalizeUnit (lftWindowUnit tokens e)) ∧
       (lftWindowRange tokens e = "" → r.range = lftMetaRange name) ∧
       (lftWindowRange tokens e ≠ "" → r.range = lftWindowRange tokens e))) ∧
    (∀ name : String, normalizeUnit (lftMetaUnit name) = lftMetaUnit name) := by
  refine ⟨?_, ?_, normalizeUnit_meta⟩
  · intro tokens name e r i2 h
    exact cbcMatchBody_backfill h
  · intro tokens name e r i2 h
    obtain ⟨h1, h2, h3, h4⟩ := lftMatchBody_backfill h
    exact ⟨fun hw => by rw [h1 hw, normalizeUnit_meta], h2, h3, h4⟩

/-- Witness for C5: a CBC match with no unit in the window receives the
metadata default, one with `%` in the window keeps it, and an LFT match
with no unit in the window receives the (normalisation-fixed) metadata
default. -/
theorem claim_C5_witness :
    (cbcWindowUnit ["Haemoglobin", "12.5"] 1 = "" →
      ({ parameter := "Haemoglobin", value := "12.5", unit := "g/dL", range := "13 - 17" } : Record).unit = cbcMetaUnit "Haemoglobin") ∧
    (cbcWindowUnit ["Neutrophils", "55", "%"] 1 ≠ "" →
      ({ parameter := "Neutrophils", value := "55", unit := "%", range := "40 - 80" } : Record).unit = cbcWindowUnit ["Neutrophils", "55", "%"] 1) ∧
    (lftWindowUnit ["sgot", "35"] 1 = "" →
      ({ parameter := "SGOT (AST)", value := "35", unit := "U/L", range := "5 - 40" } : Record).unit = lftMetaUnit "SGOT (AST)") ∧
    normalizeUnit (lftMetaUnit "GGT") = lftMetaUnit "GGT" :=
  ⟨(claim_C5_theorem.1 ["Haemoglobin", "12.5"] "Haemoglobin" 1
      { parameter := "Haemoglobin", value := "12.5", unit := "g/dL", range := "13 - 17" } 2
      (by decide)).1,
   (claim_C5_theorem.1 ["Neutrophils", "55", "%"] "Neutrophils" 1
      { parameter := "Neutrophils", value := "55", unit := "%", range := "40 - 80" } 2
      (by decide)).2.1,
   (claim_C5_theorem.2.1 ["sgot", "35"] "SGOT (AST)" 1
      { parameter := "SGOT (AST)", value := "35", unit := "U/L", range := "5 - 40" } 2
      (by decide)).1,
   claim_C5_theorem.2.2 "GGT"⟩

/-! ### Section classifier (C8) -/

theorem getLast?_map {α β : Type} (f : α → β) :
    ∀ l : List α, (l.map f).getLast? = (l.getLast?).map f := by
  intro l
  induction l with
  | nil => rfl
  | cons a t ih =>
      cases t with
      | nil => rfl
      | cons b u =>
          rw [List.map_cons, List.map_cons, List.getLast?_cons_cons,
            List.getLast?_cons_cons, ← List.map_cons]
          exact ih

theorem assignGo_hdr :
    ∀ (rows : List Row) (cur : String) (k : Nat),
      ((assignSectionsGo cur rows).getD k { tokens := [] }).hdr =
        (rows.getD k { tokens := [] }).hdr := by
  intro rows
  induction rows with
  | nil => intro cur k; rfl
  | cons r rs ih =>
      intro cur k
      cases k with
      | zero => rfl
      | succ k2 =>
          show ((assignSectionsGo _ rs).getD k2 _).hdr = (rs.getD k2 _).hdr
          exact ih _ k2

theorem assignGo_sect :
    ∀ (rows : List Row) (cur : String) (k : Nat), k < rows.length →
      ((assignSectionsGo cur rows).getD k { tokens := [] }).sect =
        (match ((rows.take (k + 1)).filter (fun r => r.hdr == some true)).getLast? with
         | some r => joinSpace r.tokens
         | none => cur) := by
  intro rows
  induction rows with
  | nil => intro cur k h; simp at h
  | cons r rs ih =>
      intro cur k h
      cases k with
      | zero =>
          by_cases hh : (r.hdr == some true) = true
          · simp [assignSectionsGo, hh]
          · simp [assignSectionsGo, hh]
      | succ k2 =>
          have hlen : k2 < rs.length := by simpa using h
          have step : ((assignSectionsGo cur (r :: rs)).getD (k2 + 1) { tokens := [] }).sect
              = ((assignSectionsGo (if r.hdr == some true then joinSpace r.tokens else cur)
                  rs).getD k2 { tokens := [] }).sect := rfl
          rw [step, ih _ k2 hlen]
          by_cases hh : (r.hdr == some true) = true
          · rw [if_pos hh]
            have hfil : ((r :: rs).take (k2 + 1 + 1)).filter (fun q => q.hdr == some true)
                = r :: (rs.take (k2 + 1)).filter (fun q => q.hdr == some true) := by
              rw [List.take_succ_cons, List.filter_cons, if_pos hh]
            rw [hfil]
            cases hF : (rs.take (k2 + 1)).filter (fun q => q.hdr == some true) with
            | nil => rfl
            | cons f fs =>
                rw [List.getLast?_cons_cons]
                cases hL : (f :: fs).getLast? with
                | none => simp at hL
                | some q => rfl
          · rw [if_neg hh]
            have hfil : ((r :: rs).take (k2 + 1 + 1)).filter (fun q => q.hdr == some true)
                = (rs.take (k2 + 1)).filter (fun q => q.hdr == some true) := by
              rw [List.take_succ_cons, List.filter_cons, if_neg hh]
            rw [hfil]

/-- C8 (confirmed): a row is classified as header exactly when some
token case-insensitively contains a header keyword; the threaded
section starts as the literal `"main"` and every row is stamped with
the space-joined tokens of the closest header row at or before it
(its own text for a header row), or `"main"` when none precedes. -/
theorem claim_C8_theorem :
    (∀ (kws : List String) (tokens : List String), tagHeader kws tokens = true ↔
      ∃ t ∈ tokens, ∃ kw ∈ kws, pyIn kw (pyLower t) = true) ∧
    (∀ (kws : List String) (rts : List (List String)) (k : Nat), k < rts.length →
      ((assignSections (tagRows kws rts)).getD k { tokens := [] }).sect =
        (match ((rts.take (k + 1)).filter (tagHeader kws)).getLast? with
         | some ts => joinSpace ts
         | none => "main")) ∧
    (∀ (kws : List String) (rts : List (List String)) (k : Nat), k < rts.length →
      ((assignSections (tagRows kws rts)).getD k { tokens := [] }).hdr =
        some (tagHeader kws (rts.getD k []))) := by
  refine ⟨?_, ?_, ?_⟩
  · intro kws tokens
    unfold tagHeader
    simp [List.any_eq_true]
  · intro kws rts k h
    have hlen : k < (tagRows kws rts).length := by simpa [tagRows] using h
    unfold assignSections
    rw [assignGo_sect (tagRows kws rts) "main" k hlen]
    have hfil : ((tagRows kws rts).take (k + 1)).filter (fun q => q.hdr == some true)
        = (tagRows kws ((rts.take (k + 1)))).filter (fun q => q.hdr == some true) := by
      unfold tagRows
      rw [List.map_take]
    rw [hfil]
    unfold tagRows
    rw [List.filter_map]
    have hpred : ((fun q : Row => q.hdr == some true) ∘
        (fun ts => ({ tokens := ts, sect := "main", hdr := some (tagHeader kws ts), dat := some (!tagHeader kws ts) } : Row))) = tagHeader kws := by
      funext ts
      show (some (tagHeader kws ts) == some true) = tagHeader kws ts
      cases tagHeader kws ts <;> rfl
    rw [hpred, getLast?_map]
    cases ((rts.take (k + 1)).filter (tagHeader kws)).getLast? with
    | none => rfl
    | some ts => rfl
  · intro kws rts k h
    unfold assignSections
    rw [assignGo_hdr]
    unfold tagRows
    have h1 : (rts.map (fun ts => ({ tokens := ts, sect := "main", hdr := some (tagHeader kws ts), dat := some (!tagHeader kws ts) } : Row))).getD k { tokens := [] }
        = ({ tokens := rts.getD k [], sect := "main", hdr := some (tagHeader kws (rts.getD k [])), dat := some (!tagHeader kws (rts.getD k [])) } : Row) := by
      rw [List.getD_eq_getElem?_getD, List.getElem?_map, List.getD_eq_getElem?_getD,
        List.getElem?_eq_getElem h, Option.map_some']
      rfl
    rw [h1]

/-- Witness for C8: the spec's own section example — a
`Differential Leucocyte Count` header row stamps itself and the
following data row with its joined text. -/
theorem claim_C8_witness :
    ((assignSections (tagRows cbcHeaderKeywords
        [["Differential", "Leucocyte", "Count"], ["Neutrophils", "55", "%"]])).getD 1
      { tokens := [] }).sect =
        (match (([["Differential", "Leucocyte", "Count"], ["Neutrophils", "55", "%"]].take
            2).filter (tagHeader cbcHeaderKeywords)).getLast? with
         | some ts => joinSpace ts
         | none => "main") ∧
    ((assignSections (tagRows cbcHeaderKeywords
        [["Differential", "Leucocyte", "Count"], ["Neutrophils", "55", "%"]])).getD 0
      { tokens := [] }).hdr =
        some (tagHeader cbcHeaderKeywords
          ([["Differential", "Leucocyte", "Count"], ["Neutrophils", "55", "%"]].getD 0 [])) :=
  ⟨claim_C8_theorem.2.1 cbcHeaderKeywords
      [["Differential", "Leucocyte", "Count"], ["Neutrophils", "55", "%"]] 1 (by decide),
   claim_C8_theorem.2.2 cbcHeaderKeywords
      [["Differential", "Leucocyte", "Count"], ["Neutrophils", "55", "%"]] 0 (by decide)⟩

/-! ### Total-Proteins lookahead (C9) -/

theorem tpLookahead_seen :
    ∀ (rows : List (List String)) (acc : List Record) (seen : List String),
      seen.contains "total proteins" = true → tpLookahead rows acc seen = (acc, seen) := by
  intro rows
  induction rows with
  | nil => intro acc seen _; rfl
  | cons tokens rest ih =>
      intro acc seen h
      unfold tpLookahead
      rw [if_neg (by rw [h]; simp)]
      exact ih acc seen h

theorem tpLookahead_len :
    ∀ (rows : List (List String)) (acc : List Record) (seen : List String),
      (tpLookahead rows acc seen).1.length ≤ acc.length + 1 := by
  intro rows
  induction rows with
  | nil => intro acc seen; simp [tpLookahead]
  | cons tokens rest ih =>
      intro acc seen
      unfold tpLookahead
      by_cases hc : (tpFireCond tokens rest.head? && !seen.contains "total proteins") = true
      · rw [if_pos hc]
        rw [tpLookahead_seen _ _ _ (by simp [List.contains_cons])]
        simp
      · rw [if_neg hc]
        exact ih acc seen

theorem tpLookahead_mem :
    ∀ (rows : List (List String)) (acc : List Record) (seen : List String) (r : Record),
      r ∈ (tpLookahead rows acc seen).1 → r ∈ acc ∨ ∃ v, r = tpRecordOf v := by
  intro rows
  induction rows with
  | nil => intro acc seen r h; exact Or.inl h
  | cons tokens rest ih =>
      intro acc seen r h
      unfold tpLookahead at h
      by_cases hc : (tpFireCond tokens rest.head? && !seen.contains "total proteins") = true
      · rw [if_pos hc, tpLookahead_seen _ _ _ (by simp [List.contains_cons])] at h
        rcases List.mem_append.mp h with h | h
        · exact Or.inl h
        · exact Or.inr ⟨_, List.mem_singleton.mp h⟩
      · rw [if_neg hc] at h
        exact ih acc seen r h

theorem tpFireCond_iff (tokens : List String) (nextTokens : Option (List String)) :
    tpFireCond tokens nextTokens = true ↔
      ("TOTAL" ∈ tokens.map pyUpper ∧ "PROTEINS" ∈ tokens.map pyUpper ∧
        ∃ nt, nextTokens = some nt ∧ nt ≠ [] ∧ tpNumericish (nt.headD "") = true) := by
  unfold tpFireCond
  cases nextTokens with
  | none => simp [contains_iff]
  | some nt =>
      simp only [Bool.and_eq_true, contains_iff, Bool.not_eq_true']
      constructor
      · rintro ⟨⟨h1, h2⟩, h3, h4⟩
        refine ⟨h1, h2, nt, rfl, ?_, h4⟩
        intro hnil
        rw [hnil] at h3
        simp at h3
      · rintro ⟨h1, h2, nt2, hnt, h3, h4⟩
        obtain rfl := Option.some.inj hnt
        cases nt with
        | nil => exact absurd rfl h3
        | cons a t => exact ⟨⟨h1, h2⟩, rfl, h4⟩

/-- C9 (corrected): the lookahead fires for a row whose uppercased
tokens merely *contain* both `"TOTAL"` and `"PROTEINS"` (not only for a
row whose tokens are exactly those two words — see the counterexample),
provided the following row's first token is digit-like and
`'total proteins'` is not in the `seen` set; once fired, the key is
added to `seen`, so the heuristic appends at most one `Total Proteins`
record per document, and everything it appends is such a record. -/
theorem claim_C9_theorem :
    (∀ (tokens : List String) (nextTokens : Option (List String)),
      tpFireCond tokens nextTokens = true ↔
        ("TOTAL" ∈ tokens.map pyUpper ∧ "PROTEINS" ∈ tokens.map pyUpper ∧
          ∃ nt, nextTokens = some nt ∧ nt ≠ [] ∧ tpNumericish (nt.headD "") = true)) ∧
    (∀ (rows : List (List String)) (acc : List Record) (seen : List String),
      seen.contains "total proteins" = true → tpLookahead rows acc seen = (acc, seen)) ∧
    (∀ (rows : List (List String)) (acc : List Record) (seen : List String),
      (tpLookahead rows acc seen).1.length ≤ acc.length + 1) ∧
    (∀ (rows : List (List String)) (acc : List Record) (seen : List String) (r : Record),
      r ∈ (tpLookahead rows acc seen).1 → r ∈ acc ∨ ∃ v, r = tpRecordOf v) :=
  ⟨tpFireCond_iff, tpLookahead_seen, tpLookahead_len, tpLookahead_mem⟩

/-- Witness for C9 at concrete inputs. -/
theorem claim_C9_witness :
    (tpFireCond ["TOTAL", "PROTEINS"] (some ["7.0"]) = true ↔
      ("TOTAL" ∈ (["TOTAL", "PROTEINS"] : List String).map pyUpper ∧
        "PROTEINS" ∈ (["TOTAL", "PROTEINS"] : List String).map pyUpper ∧
        ∃ nt, (some ["7.0"] : Option (List String)) = some nt ∧ nt ≠ [] ∧
          tpNumericish (nt.headD "") = true)) ∧
    tpLookahead [["TOTAL", "PROTEINS"], ["7.0"]] [] ["total proteins"] =
      ([], ["total proteins"]) ∧
    (tpLookahead [["TOTAL", "PROTEINS"], ["7.0"], ["TOTAL", "PROTEINS"], ["8.0"]] []
        []).1.length ≤ 1 ∧
    (tpRecordOf "7.0" ∈
        (tpLookahead [["TOTAL", "PROTEINS"], ["7.0"]] [] []).1 →
      tpRecordOf "7.0" ∈ ([] : List Record) ∨ ∃ v, tpRecordOf "7.0" = tpRecordOf v) :=
  ⟨claim_C9_theorem.1 ["TOTAL", "PROTEINS"] (some ["7.0"]),
   claim_C9_theorem.2.1 [["TOTAL", "PROTEINS"], ["7.0"]] [] ["total proteins"] (by decide),
   claim_C9_theorem.2.2.1 [["TOTAL", "PROTEINS"], ["7.0"], ["TOTAL", "PROTEINS"], ["8.0"]]
      [] [],
   claim_C9_theorem.2.2.2 [["TOTAL", "PROTEINS"], ["7.0"]] [] [] (tpRecordOf "7.0")⟩

/-- Counterexample for C9 as stated: the heuristic fires (and appends a
`Total Proteins` record) for the row `["TOTAL", "PROTEINS", "X"]`, whose
tokens are not exactly `"TOTAL"` and `"PROTEINS"`. -/
theorem claim_C9_counterexample :
    (tpLookahead [["TOTAL", "PROTEINS", "X"], ["7.0"]] [] []).1 = [tpRecordOf "7.0"] ∧
    (["TOTAL", "PROTEINS", "X"] : List String).length ≠ 2 := by
  refine ⟨by decide, by decide⟩

/-- C6 (amended): for any two simple numeric literals `a` and `b`
(digits with an optional single decimal part, no comma grouping), each
of the three input forms `a-b` (hyphen), `a–b` (en-dash), and `a to b`
is recognized by the range grammar and normalized to the identical
output string `a to b`. (As stated over all NUMBER_RE literals the
claim fails: comma-grouped bounds are split by the range grammar, see
the counterexample.) -/
theorem claim_C6_theorem (a b : String) (ha : simpleNum a = true)
    (hb : simpleNum b = true) :
    rangeTo (a ++ "-" ++ b) = some (a ++ " to " ++ b) ∧
    rangeTo (a ++ "–" ++ b) = some (a ++ " to " ++ b) ∧
    rangeTo (a ++ " to " ++ b) = some (a ++ " to " ++ b) := by
  refine ⟨?_, ?_, ?_⟩
  · exact rangeTo_concat ha hb (Or.inl rfl)
  · exact rangeTo_concat ha hb (Or.inr (Or.inl rfl))
  · exact rangeTo_concat ha hb (Or.inr (Or.inr rfl))

/-- Witness for C6 at `a = "12.5"`, `b = "7"`. -/
theorem claim_C6_witness :
    simpleNum "12.5" = true ∧ simpleNum "7" = true ∧
    rangeTo ("12.5" ++ "-" ++ "7") = some ("12.5" ++ " to " ++ "7") ∧
    rangeTo ("12.5" ++ "–" ++ "7") = some ("12.5" ++ " to " ++ "7") ∧
    rangeTo ("12.5" ++ " to " ++ "7") = some ("12.5" ++ " to " ++ "7") :=
  ⟨by decide, by decide, claim_C6_theorem "12.5" "7" (by decide) (by decide)⟩

/-- Counterexample for C6 as stated: `"1,000"` is a numeric literal
under NUMBER_RE, but the range grammar splits the comma group, so
`"1,000-5"` normalizes to `"000 to 5"`, not `"1,000 to 5"`. -/
theorem claim_C6_counterexample :
    matchNumber "1,000" = true ∧ matchNumber "5" = true ∧
    rangeTo "1,000-5" = some "000 to 5" ∧
    ("000 to 5" : String) ≠ "1,000 to 5" := by
  refine ⟨by decide, by decide, by decide, by decide⟩

end MedExtract






